import Mathlib

/-!
# glabs: fetching grading results (`gitlab/fetchresults.go`)

A shallow embedding of `FetchResults`, `fetchResults`, `fetchResultsPerStudent`,
`fetchResultsPerGroup` and `parseGradingHtml`, and the properties of the
result-fetching pipeline proved about it.

Conventions of the embedding:

* Go `int` is the 64-bit two's-complement integer: values are `Int`, and the
  results of `*` are wrapped by `wrapInt`.
* A `[]byte` / `string` that is scanned (the report, regexp captures) is a
  `List Char`; the two regular expressions are ASCII only, so a match never
  depends on how the other bytes are grouped into characters.
* The forge (GitLab) is a record of functions from a request to its outcome.
* The file system is the single file at `getResultsJsPath assignmentCfg`,
  every `OpenFile` takes its outcome from the front of `World.opens`.
* Every effect is recorded, in program order, in `World.trace`.
* Logging (zerolog), the spinner and the texts printed to the terminal have no
  influence on control flow or on the file, and are left out.
-/

set_option linter.unusedVariables false

namespace Glabs

/-! ## Go runtime: integers, errors, `strconv.Atoi`, `regexp` -/

/-- Largest value of a Go `int` (64 bit). -/
def maxInt : Int := 2 ^ 63 - 1

/-- Wrap an exact integer into the range of a Go `int`: what `+`, `*` on
`int` return. -/
def wrapInt (x : Int) : Int := (x + 2 ^ 63) % 2 ^ 64 - 2 ^ 63

/-- Go `a * b` on `int`. -/
def mulInt (a b : Int) : Int := wrapInt (a * b)

/-- A Go `error` value. -/
inductive GoError where
  /-- Built by `fmt.Errorf msg`. -/
  | errorf (msg : String)
  /-- A `*strconv.NumError` with its `Func`, `Num` and `Err`. -/
  | numError (fn : String) (num : List Char) (err : String)
  /-- An error handed back by the forge client or the network. -/
  | remote (msg : String)
  deriving DecidableEq, Repr

/-- What a Go function call comes to: a run-time panic, or a return. -/
inductive Go (α : Type) where
  | panic (msg : String)
  | ret (a : α)
  deriving DecidableEq, Repr

/-- Value of a run of decimal digits, most significant first (the loop
`n = n*10 + int(ch - 48)` of `strconv`), in exact arithmetic. -/
def digitsValue (ds : List Char) : Nat :=
  ds.foldl (fun n ch => n * 10 + (ch.toNat - 48)) 0

/-- Model of `strconv.Atoi`: an optional sign, then one or more decimal digits;
`invalid syntax` otherwise, `value out of range` when the number is
not an `int`. -/
def Atoi (s : List Char) : Except GoError Int :=
  let neg : Bool := match s with
    | '-' :: _ => true
    | _ => false
  let body : List Char := match s with
    | '-' :: r => r
    | '+' :: r => r
    | _ => s
  if body = [] ∨ body.all Char.isDigit = false then
    .error (.numError "Atoi" s "invalid syntax")
  else if neg then
    if (digitsValue body : Int) > maxInt + 1 then
      .error (.numError "Atoi" s "value out of range")
    else .ok (-(digitsValue body : Int))
  else
    if (digitsValue body : Int) > maxInt then
      .error (.numError "Atoi" s "value out of range")
    else .ok (digitsValue body : Int)

/-- Remove the literal `lit` from the front of `s`; `none` when `s` does not
begin with it. -/
def dropLit : List Char → List Char → Option (List Char)
  | [], s => some s
  | _ :: _, [] => none
  | c :: lit, d :: s => if c = d then dropLit lit s else none

/-- The literal that opens both patterns: a blank and an opening bracket. -/
def litOpen : List Char := [' ', '(']

/-- The literal between the two captures of the test pattern. -/
def litSlash : List Char := ['/']

/-- The literal that closes both patterns. -/
def litClose : List Char := [')', '<', '/', 's', 't', 'r', 'o', 'n', 'g', '>']

/-- The regular expression ` \(([0-9]+)\/([0-9]+)\)\<\/strong\>` anchored at the
front of `s`: the submatches `[whole, group 1, group 2]` of the match that
begins at the first character of `s`, if there is one. `[0-9]+` is greedy
and the character after it is not a digit, so each group is the whole run of
digits. -/
def testRegex (s : List Char) : Option (List (List Char)) :=
  match dropLit litOpen s with
  | none => none
  | some r1 =>
    let g1 := r1.takeWhile Char.isDigit
    if g1 = [] then none else
    match dropLit litSlash (r1.dropWhile Char.isDigit) with
    | none => none
    | some r2 =>
      let g2 := r2.takeWhile Char.isDigit
      if g2 = [] then none else
      match dropLit litClose (r2.dropWhile Char.isDigit) with
      | none => none
      | some _ => some [litOpen ++ g1 ++ litSlash ++ g2 ++ litClose, g1, g2]

/-- The regular expression ` \(([0-9]+)\)\<\/strong\>` anchored at the front of
`s`: the submatches `[whole, group 1]`. -/
def scoreRegex (s : List Char) : Option (List (List Char)) :=
  match dropLit litOpen s with
  | none => none
  | some r1 =>
    let g1 := r1.takeWhile Char.isDigit
    if g1 = [] then none else
    match dropLit litClose (r1.dropWhile Char.isDigit) with
    | none => none
    | some _ => some [litOpen ++ g1 ++ litClose, g1]

/-- Model of `(*regexp.Regexp).FindSubmatch`: the submatches of the leftmost
match of `re` in `b`, the empty slice (`nil`) when there is none. The offsets
are tried from left to right; the last one tried is the end of the input. -/
def FindSubmatch (re : List Char → Option (List (List Char))) :
    List Char → List (List Char)
  | [] => (re []).getD []
  | c :: cs =>
    match re (c :: cs) with
    | some m => m
    | none => FindSubmatch re cs

/-! ## `parseGradingHtml` -/

/-- Embedding of `parseGradingHtml`: the returned tuple
`(successfulTests, totalTests, score, err)`. Indexing a slice of submatches
out of range is a panic. -/
def parseGradingHtml (gradingHtml : List Char) : Go (Int × Int × Int × Option GoError) :=
  let testMatches := FindSubmatch testRegex gradingHtml
  if testMatches.length = 0 then
    .ret (0, 0, 0, some (.errorf "No matches for number of tests in grading.html"))
  else
  let scoreMatches := FindSubmatch scoreRegex gradingHtml
  if scoreMatches.length = 0 then
    .ret (0, 0, 0, some (.errorf "No matches for score of tests in grading.html"))
  else
  match testMatches[1]? with
  | none => .panic "index out of range"
  | some tm1 =>
    match Atoi tm1 with
    | .error err => .ret (0, 0, 0, some err)
    | .ok successfulTests =>
      match testMatches[2]? with
      | none => .panic "index out of range"
      | some tm2 =>
        match Atoi tm2 with
        | .error err => .ret (0, 0, 0, some err)
        | .ok totalTests =>
          match scoreMatches[1]? with
          | none => .panic "index out of range"
          | some sm1 =>
            match Atoi sm1 with
            | .error err => .ret (0, 0, 0, some err)
            | .ok score => .ret (successfulTests, totalTests, score, none)

/-- Embedding of lines 173-176 of `fetchResults`: the final score that is
written into the score map. -/
def finalScore (successfulTests totalTests score : Int) : Int :=
  if mulInt 10 successfulTests < mulInt 9 totalTests then 0 else score

/-! ## Configuration (package `config`) and forge client -/

/-- Modelled from the spec: the declaration of `config.Per` is not among the
sources. The roster mode is `PerStudent` or `PerGroup`; the `default` branch of
the `switch` in `FetchResults` is taken by a value that is neither, here
`other`. -/
inductive Per where
  | PerStudent
  | PerGroup
  | other (v : String)
  deriving DecidableEq, Repr

/-- Modelled from the spec: `config.Group` is not among the sources; a group
has a name and an ordered list of members. -/
structure Group where
  Name : String
  Members : List String
  deriving DecidableEq, Repr

/-- Modelled from the spec: `config.AssignmentConfig` is not among the sources;
these are the fields that `fetchresults.go` reads. -/
structure AssignmentConfig where
  Course : String
  Name : String
  Path : String
  URL : String
  Per : Per
  Students : List String
  Groups : List Group
  deriving DecidableEq, Repr

/-- A forge user (`gitlab.User`): the two fields that are written out. -/
structure User where
  Username : String
  Name : String
  deriving DecidableEq, Repr

/-- A job of a pipeline (`gitlab.Job`): the two fields that are read. -/
structure Job where
  ID : Int
  Name : String
  deriving DecidableEq, Repr

/-- The reader returned by an artifact download: what `ioutil.ReadAll` makes
of it. -/
abbrev Reader := Except GoError (List Char)

/-- The forge client `c`: every call is a function from the request to its
outcome (for a project and a pipeline, their `ID`). -/
structure Forge where
  getGroupID : AssignmentConfig → Except GoError Int
  getProjectByName : String → Except GoError Int
  ListProjectPipelines : Int → Except GoError (List Int)
  ListPipelineJobs : Int → Int → Except GoError (List Job)
  DownloadSingleArtifactsFile : Int → Int → String → Except GoError Reader
  getUser : String → Except GoError User

/-- Model of `ioutil.ReadAll`. -/
def ReadAll (reader : Reader) : Except GoError (List Char) := reader

/-! ## The process and its output file -/

/-- The three flag sets with which the output file is opened. -/
inductive OpenMode where
  /-- For the header: `O_TRUNC|O_CREATE|O_WRONLY`. -/
  | truncCreate
  /-- Once per entity: `O_APPEND|O_CREATE|O_WRONLY`. -/
  | appendCreate
  /-- For the trailer: `O_APPEND|O_WRONLY`. -/
  | append
  deriving DecidableEq, Repr

/-- An effect of the run. -/
inductive Event where
  | getGroupID
  | OpenFile (name : String) (mode : OpenMode) (ok : Bool)
  /-- A write (`WriteString`, `Fprintf`) on a handle that is valid (`ok`) or nil. -/
  | Write (ok : Bool) (text : String)
  | Close
  /-- Entry into `fetchResults`. -/
  | fetchResults (projectname : String) (members : List String)
  | getProjectByName (fullprojectname : String)
  | ListProjectPipelines (project : Int)
  | ListPipelineJobs (project pipeline : Int)
  | DownloadSingleArtifactsFile (project job : Int) (name : String)
  | getUser (student : String)
  | Exit (code : Int)
  | Panic (msg : String)
  deriving DecidableEq, Repr

/-- State of the process and of the output file. -/
structure World where
  /-- Contents of the file at `getResultsJsPath assignmentCfg`; `none` when
  there is no such file. -/
  file : Option String
  /-- Whether the environment lets the coming `OpenFile` calls succeed, in call
  order; a call beyond the end of the list is let through. -/
  opens : List Bool
  /-- The effects so far, oldest first. -/
  trace : List Event
  /-- Exit status, once the process has ended (`os.Exit`, or 2 after a panic). -/
  exit : Option Int
  deriving DecidableEq, Repr

/-- Record an effect that leaves the file alone. A process that has ended does
nothing any more. -/
def World.emit (w : World) (e : Event) : World :=
  if w.exit.isSome then w else { w with trace := w.trace ++ [e] }

/-- Model of `os.Exit code`. -/
def osExit (code : Int) (w : World) : World :=
  if w.exit.isSome then w else { w with trace := w.trace ++ [.Exit code], exit := some code }

/-- A run-time panic ends the process with status 2. -/
def goPanic (msg : String) (w : World) : World :=
  if w.exit.isSome then w else { w with trace := w.trace ++ [.Panic msg], exit := some 2 }

/-- Model of `os.OpenFile name flags 0644` on the output file: the handle is
valid (`true`) when the environment lets the call succeed and, without
`O_CREATE`, the file is there. `O_CREATE` makes a missing file, `O_TRUNC`
empties it. A failed call leaves the file as it is and gives the nil handle. -/
def OpenFile (name : String) (mode : OpenMode) (w : World) : Bool × World :=
  if w.exit.isSome then (false, w) else
  let ok : Bool := match mode with
    | .append => w.opens.headD true && w.file.isSome
    | _ => w.opens.headD true
  let file : Option String :=
    if ok then
      match mode with
      | .truncCreate => some ""
      | .appendCreate => some (w.file.getD "")
      | .append => w.file
    else w.file
  (ok, { w with file := file, opens := w.opens.tail,
                trace := w.trace ++ [.OpenFile name mode ok] })

/-- Model of `f.WriteString text` and of `fmt.Fprintf(f, ...)` with the
formatted `text`: appended to the file on a valid handle, an ignored error on
the nil handle. -/
def Write (f : Bool) (text : String) (w : World) : World :=
  if w.exit.isSome then w else
  { w with file := if f then w.file.map (fun old => old ++ text) else w.file,
           trace := w.trace ++ [.Write f text] }

/-- Model of `f.Close()`. -/
def Close (w : World) : World := w.emit .Close

/-! ## `fetchresults.go` -/

/-- Embedding of `getResultsJsPath`: every `/` of the path becomes `_`. -/
def getResultsJsPath (assignmentCfg : AssignmentConfig) : String :=
  "results_" ++
    String.mk (assignmentCfg.Path.toList.map (fun ch => if ch = '/' then '_' else ch)) ++
    ".js"

/-- The text of `fmt.Fprintf(f, "// %v;%v;%v;%v;%v\n", user.Username, user.Name,
successfulTests, totalTests, score)`. -/
def commentLine (user : User) (successfulTests totalTests score : Int) : String :=
  "// " ++ user.Username ++ ";" ++ user.Name ++ ";" ++ toString successfulTests ++ ";" ++
    toString totalTests ++ ";" ++ toString score ++ "\n"

/-- The text of `fmt.Fprintf(f, "scoreMap[\"%v\"] = %v;\n", user.Name, finalScore)`. -/
def scoreMapLine (user : User) (finalScore : Int) : String :=
  "scoreMap[\"" ++ user.Name ++ "\"] = " ++ toString finalScore ++ ";\n"

/-- Embedding of the loop `for _, student := range members` of `fetchResults`
(lines 165-178). A failed user lookup returns from `fetchResults`. -/
def membersLoop (c : Forge) (f : Bool) (successfulTests totalTests score : Int) :
    List String → World → World
  | [], w => w
  | student :: members, w =>
    let w := w.emit (.getUser student)
    match c.getUser student with
    | .error _ => w
    | .ok user =>
      let w := Write f (commentLine user successfulTests totalTests score) w
      let w := Write f (scoreMapLine user (finalScore successfulTests totalTests score)) w
      membersLoop c f successfulTests totalTests score members w

/-- Embedding of the loop `for _, job := range jobs` of `fetchResults`
(lines 148-181): the first job named `Summary Report` is handled, then the
loop is left. -/
def jobsLoop (c : Forge) (f : Bool) (project : Int) (members : List String) :
    List Job → World → World
  | [], w => w
  | job :: jobs, w =>
    if job.Name = "Summary Report" then
      let w := w.emit (.DownloadSingleArtifactsFile project job.ID "grading.html")
      match c.DownloadSingleArtifactsFile project job.ID "grading.html" with
      | .error _ => w
      | .ok reader =>
        match ReadAll reader with
        | .error _ => w
        | .ok gradingHtml =>
          match parseGradingHtml gradingHtml with
          | .panic msg => goPanic msg w
          | .ret (_, _, _, some _) => w
          | .ret (successfulTests, totalTests, score, none) =>
            membersLoop c f successfulTests totalTests score members w
    else jobsLoop c f project members jobs w

/-- Embedding of `fetchResults`. The deferred `f.Close()` is the last effect on
every path. -/
def fetchResults (c : Forge) (assignmentCfg : AssignmentConfig) (assignmentGroupID : Int)
    (projectname : String) (members : List String) (w : World) : World :=
  let w := w.emit (.fetchResults projectname members)
  let (f, w) := OpenFile (getResultsJsPath assignmentCfg) .appendCreate w
  let fullprojectname := assignmentCfg.Path ++ "/" ++ projectname
  let w := w.emit (.getProjectByName fullprojectname)
  Close <|
    match c.getProjectByName fullprojectname with
    | .error _ => w
    | .ok project =>
      let w := w.emit (.ListProjectPipelines project)
      match c.ListProjectPipelines project with
      | .error _ => w
      | .ok [] => w
      | .ok (pipeline :: _) =>
        let w := w.emit (.ListPipelineJobs project pipeline)
        match c.ListPipelineJobs project pipeline with
        | .error _ => w
        | .ok jobs => jobsLoop c f project members jobs w

/-- Embedding of `fetchResultsPerStudent`. -/
def fetchResultsPerStudent (c : Forge) (assignmentCfg : AssignmentConfig)
    (assignmentGroupID : Int) (w : World) : World :=
  if assignmentCfg.Students.length = 0 then w
  else
    assignmentCfg.Students.foldl
      (fun w student =>
        fetchResults c assignmentCfg assignmentGroupID
          (assignmentCfg.Name ++ "-" ++ student) [student] w)
      w

/-- Embedding of `fetchResultsPerGroup`. -/
def fetchResultsPerGroup (c : Forge) (assignmentCfg : AssignmentConfig)
    (assignmentGroupID : Int) (w : World) : World :=
  if assignmentCfg.Groups.length = 0 then w
  else
    assignmentCfg.Groups.foldl
      (fun w grp =>
        fetchResults c assignmentCfg assignmentGroupID
          (assignmentCfg.Name ++ "-" ++ grp.Name) grp.Members w)
      w

/-- The header written by `FetchResults` (line 33). -/
def headerLine : String := "scoreMap = \x7b\x7d;\n"

/-- The eleven lines written by `FetchResults` after the roster (lines 51-61). -/
def trailerLines : List String :=
  [ "as = document.getElementsByTagName(\"a\");\n",
    "for (i = 0; i < as.length; i++) \x7b\n",
    "    var score = scoreMap[as.item(i).innerText];\n",
    "    if (score != undefined) \x7b\n",
    "        console.log(\"Setting score of \" + as.item(i).innerText + \" to \" + score);\n",
    "        as.item(i).parentElement.parentElement.childNodes[4].getElementsByTagName(\"input\")[0].value = score\n",
    "        delete scoreMap[as.item(i).innerText];\n",
    "    \x7d\n",
    "\x7d\n",
    "console.log(\"Scores which were not set:\")\n",
    "console.log(scoreMap)\n" ]

/-- Embedding of `FetchResults`. -/
def FetchResults (c : Forge) (assignmentCfg : AssignmentConfig) (w : World) : World :=
  let w := w.emit .getGroupID
  match c.getGroupID assignmentCfg with
  | .error _ => osExit 1 w
  | .ok assignmentGitLabGroupID =>
    let (f, w) := OpenFile (getResultsJsPath assignmentCfg) .truncCreate w
    let w := Write f headerLine w
    let w := Close w
    let w := match assignmentCfg.Per with
      | .PerGroup => fetchResultsPerGroup c assignmentCfg assignmentGitLabGroupID w
      | .PerStudent => fetchResultsPerStudent c assignmentCfg assignmentGitLabGroupID w
      | .other _ => osExit 1 w
    let (f, w) := OpenFile (getResultsJsPath assignmentCfg) .append w
    let w := trailerLines.foldl (fun w line => Write f line w) w
    Close w

/-! ## The two patterns, as the specification words them -/

/-- A non-empty run of decimal digits, what `[0-9]+` matches. -/
def IsDigits (d : List Char) : Prop := d ≠ [] ∧ ∀ ch ∈ d, ch.isDigit = true

/-- The test pattern ` (<digits>/<digits>)</strong>` has a match in `s` that
begins at offset `i` and captures the digit runs `p` and `t`. -/
def TestMatchAt (s : List Char) (i : Nat) (p t : List Char) : Prop :=
  IsDigits p ∧ IsDigits t ∧
    ∃ pre post, pre.length = i ∧
      s = pre ++ (litOpen ++ p ++ litSlash ++ t ++ litClose) ++ post

/-- The score pattern ` (<digits>)</strong>` has a match in `s` that begins at
offset `j` and captures the digit run `sc`. -/
def ScoreMatchAt (s : List Char) (j : Nat) (sc : List Char) : Prop :=
  IsDigits sc ∧
    ∃ pre post, pre.length = j ∧ s = pre ++ (litOpen ++ sc ++ litClose) ++ post

/-! ## The orchestration as functions of the forge, to compare the code with -/

/-- Entity Resolver in `PerStudent` mode: one entity per student, named
`<assignment>-<student>`, with the student as its only member. -/
def studentEntities (assignmentCfg : AssignmentConfig) : List (String × List String) :=
  assignmentCfg.Students.map (fun student => (assignmentCfg.Name ++ "-" ++ student, [student]))

/-- Entity Resolver in `PerGroup` mode: one entity per group, named
`<assignment>-<group name>`, with the members of the group. -/
def groupEntities (assignmentCfg : AssignmentConfig) : List (String × List String) :=
  assignmentCfg.Groups.map (fun grp => (assignmentCfg.Name ++ "-" ++ grp.Name, grp.Members))

/-- Entity Resolver: the entities of the roster in the mode of the assignment. -/
def entities (assignmentCfg : AssignmentConfig) : List (String × List String) :=
  match assignmentCfg.Per with
  | .PerStudent => studentEntities assignmentCfg
  | .PerGroup => groupEntities assignmentCfg
  | .other _ => []

/-- The orchestrator over resolved entities: `fetchResults` for each, in order. -/
def processEntities (c : Forge) (assignmentCfg : AssignmentConfig) (assignmentGroupID : Int)
    (es : List (String × List String)) (w : World) : World :=
  es.foldl (fun w e => fetchResults c assignmentCfg assignmentGroupID e.1 e.2 w) w

/-- The invocation of `fetchResults` that an event stands for, if it is one. -/
def Event.call : Event → Option (String × List String)
  | .fetchResults projectname members => some (projectname, members)
  | _ => none

/-- The invocations of `fetchResults` in a trace, in order. -/
def calls (trace : List Event) : List (String × List String) := trace.filterMap Event.call

/-- The project path that an event looks up on the forge, if it is a lookup. -/
def Event.lookup : Event → Option String
  | .getProjectByName fullprojectname => some fullprojectname
  | _ => none

/-- The repository lookups made on the forge in a trace, in order. -/
def lookups (trace : List Event) : List String := trace.filterMap Event.lookup

/-- How steps 1 to 6 of the orchestrator end for one entity. -/
inductive EntityOutcome where
  | lookupFailed
  | pipelinesFailed
  | noPipelines
  | jobsFailed
  | noSummaryJob
  | downloadFailed
  | readFailed
  | parseFailed
  | graded (successfulTests totalTests score : Int)
  deriving DecidableEq, Repr

/-- Whether a report was obtained and parsed. -/
def EntityOutcome.isGraded : EntityOutcome → Bool
  | .graded _ _ _ => true
  | _ => false

/-- Steps 4 to 6 of the orchestrator: take the first job named
`Summary Report`, download its `grading.html` and parse it. -/
def reportOutcome (c : Forge) (project : Int) (jobs : List Job) : EntityOutcome :=
  match jobs.find? (fun job => job.Name = "Summary Report") with
  | none => .noSummaryJob
  | some job =>
    match c.DownloadSingleArtifactsFile project job.ID "grading.html" with
    | .error _ => .downloadFailed
    | .ok (.error _) => .readFailed
    | .ok (.ok gradingHtml) =>
      match parseGradingHtml gradingHtml with
      | .ret (successfulTests, totalTests, score, none) =>
        .graded successfulTests totalTests score
      | _ => .parseFailed

/-- Steps 1 to 6 of the orchestrator for the repository `projectname`: look the
repository up, take the newest finished pipeline, list its jobs, then
`reportOutcome`. -/
def entityOutcome (c : Forge) (assignmentCfg : AssignmentConfig) (projectname : String) :
    EntityOutcome :=
  match c.getProjectByName (assignmentCfg.Path ++ "/" ++ projectname) with
  | .error _ => .lookupFailed
  | .ok project =>
    match c.ListProjectPipelines project with
    | .error _ => .pipelinesFailed
    | .ok [] => .noPipelines
    | .ok (pipeline :: _) =>
      match c.ListPipelineJobs project pipeline with
      | .error _ => .jobsFailed
      | .ok jobs => reportOutcome c project jobs

/-- The members of an entity that the loop of `fetchResults` writes a record
for: those before the first member whose user lookup fails, with the users
found. -/
def recordedUsers (c : Forge) : List String → List User
  | [] => []
  | student :: members =>
    match c.getUser student with
    | .error _ => []
    | .ok user => user :: recordedUsers c members

/-- The record of one member: the comment line, then the score map line. -/
def recordText (successfulTests totalTests score : Int) (user : User) : String :=
  commentLine user successfulTests totalTests score ++
    scoreMapLine user (finalScore successfulTests totalTests score)

/-- Concatenation of texts, in order. -/
def concatText : List String → String
  | [] => ""
  | a :: l => a ++ concatText l

/-- The records that an outcome brings for the members of the entity, in member
order; nothing unless the entity is graded. -/
def outcomeText (c : Forge) (members : List String) : EntityOutcome → String
  | .graded successfulTests totalTests score =>
    concatText ((recordedUsers c members).map (recordText successfulTests totalTests score))
  | _ => ""

/-- The records of one entity of the roster. -/
def entityText (c : Forge) (assignmentCfg : AssignmentConfig) (e : String × List String) :
    String :=
  outcomeText c e.2 (entityOutcome c assignmentCfg e.1)

/-- What a write of `text` on the handle `f` makes of the file. -/
def appendText (f : Bool) (text : String) (file : Option String) : Option String :=
  if f then file.map (fun old => old ++ text) else file

/-- A projection of the trace that sees at most the entries into `fetchResults`,
the repository lookups and the opens of the output file. -/
def Quiet {β : Type} (g : Event → Option β) : Prop :=
  ∀ e, (∀ p m, e ≠ .fetchResults p m) → (∀ n, e ≠ .getProjectByName n) →
    (∀ n m ok, e ≠ .OpenFile n m ok) → g e = none

/-- The outcome of an open of the output file for appending with `O_CREATE`, as
`fetchResults` makes it, if the event is one. -/
def Event.appendOpen : Event → Option Bool
  | .OpenFile _ .appendCreate ok => some ok
  | _ => none

/-- The outcomes of the opens for appending made by `fetchResults` in a trace,
in order. -/
def appendOpens (trace : List Event) : List Bool := trace.filterMap Event.appendOpen

/-- Lines 29-34 of `FetchResults` on their own: open with truncation, write
the header, close. -/
def writeHeader (assignmentCfg : AssignmentConfig) (w : World) : World :=
  Close (Write (OpenFile (getResultsJsPath assignmentCfg) .truncCreate w).1 headerLine
    (OpenFile (getResultsJsPath assignmentCfg) .truncCreate w).2)

/-- Lines 46-62 of `FetchResults` on their own: open for appending, write the
eleven lines, close. -/
def writeTrailer (assignmentCfg : AssignmentConfig) (w : World) : World :=
  Close (trailerLines.foldl
    (fun w1 line => Write (OpenFile (getResultsJsPath assignmentCfg) .append w).1 line w1)
    (OpenFile (getResultsJsPath assignmentCfg) .append w).2)

/-! ## Sample data -/

/-- A report with 9 of 10 tests passed and the score 65. -/
def sampleReport : List Char := " (9/10)</strong> (65)</strong>".toList

/-- A forge on which the assignment group exists, the repositories `hw1-alice`
and `hw1-g1` exist and have a finished pipeline with a `Summary Report` job
holding `sampleReport`, and every user but `dave` is known. -/
def sampleForge : Forge where
  getGroupID := fun _ => .ok 1
  getProjectByName := fun n =>
    if n = "course/hw1-alice" then .ok 10
    else if n = "course/hw1-g1" then .ok 20
    else .error (.remote "404 Project Not Found")
  ListProjectPipelines := fun _ => .ok [5]
  ListPipelineJobs := fun _ _ => .ok [⟨1, "build"⟩, ⟨2, "Summary Report"⟩]
  DownloadSingleArtifactsFile := fun _ _ _ => .ok (.ok sampleReport)
  getUser := fun s =>
    if s = "dave" then .error (.remote "404 User Not Found") else .ok ⟨s, s⟩

/-- The same forge without the group of the assignment. -/
def sampleForgeNoGroup : Forge :=
  { sampleForge with getGroupID := fun _ => .error (.remote "404 Group Not Found") }

/-- Assignment `hw1` of `course`, per student, with the students bob (who has no
repository on `sampleForge`) and alice, and the group g1. -/
def sampleCfg : AssignmentConfig :=
  { Course := "course", Name := "hw1", Path := "course", URL := "https://forge/course",
    Per := .PerStudent, Students := ["bob", "alice"],
    Groups := [⟨"g1", ["carol", "dave", "erin"]⟩] }

/-- A running process, an output file left by an earlier run, and no failing
open to come. -/
def sampleWorld : World := { file := some "old scores", opens := [], trace := [], exit := none }

/-! ## Properties of the score gate -/

theorem wrapInt_of_range (x : Int) (h0 : 0 ≤ x) (h1 : x ≤ maxInt) : wrapInt x = x := by
  unfold wrapInt
  unfold maxInt at h1
  have e63 : (2 : Int) ^ 63 = 9223372036854775808 := by norm_num
  have e64 : (2 : Int) ^ 64 = 18446744073709551616 := by norm_num
  rw [e63] at h1 ⊢
  rw [e64]
  omega

/-- C1. Score policy of `fetchResults`: for non-negative `passed`, `total` whose
products `10*passed` and `9*total` do not overflow the machine int, the final
score written to the score map is `raw` when `10*passed >= 9*total` and `0`
when `10*passed < 9*total`. -/
theorem finalScore_policy (passed total raw : Int)
    (hp : 0 ≤ passed) (ht : 0 ≤ total)
    (hp10 : 10 * passed ≤ maxInt) (ht9 : 9 * total ≤ maxInt) :
    (9 * total ≤ 10 * passed → finalScore passed total raw = raw) ∧
    (10 * passed < 9 * total → finalScore passed total raw = 0) := by
  have e1 : mulInt 10 passed = 10 * passed := wrapInt_of_range _ (by omega) hp10
  have e2 : mulInt 9 total = 9 * total := wrapInt_of_range _ (by omega) ht9
  unfold finalScore
  rw [e1, e2]
  constructor
  · intro h
    rw [if_neg (by omega)]
  · intro h
    rw [if_pos h]

/-- Witness of C1: `passed = 9, total = 10` keeps the raw score 65,
`passed = 8, total = 10` gives 0, and all values below `2^59` are in scope. -/
theorem finalScore_policy_witness :
    finalScore 9 10 65 = 65 ∧ finalScore 8 10 65 = 0 ∧
    (10 * (2 ^ 59 - 1) ≤ maxInt ∧ 9 * (2 ^ 59 - 1) ≤ maxInt) :=
  ⟨(finalScore_policy 9 10 65 (by decide) (by decide) (by decide) (by decide)).1 (by decide),
   (finalScore_policy 8 10 65 (by decide) (by decide) (by decide) (by decide)).2 (by decide),
   by decide, by decide⟩

/-- C10, as stated, fails: the report ` (10^18/10^18)</strong> (50)</strong>` is
parsed to `passed = total = 10^18`, both within the machine int; the wrapped
`10*passed` is negative, so the gate `10*passed < 9*total` is taken and the
final score is 0, while in exact arithmetic `10*passed < 9*total` is false. -/
theorem score_gate_overflow_counterexample :
    parseGradingHtml
        " (1000000000000000000/1000000000000000000)</strong> (50)</strong>".toList
      = .ret (1000000000000000000, 1000000000000000000, 50, none) ∧
    (0 : Int) ≤ 1000000000000000000 ∧ (1000000000000000000 : Int) ≤ maxInt ∧
    mulInt 10 1000000000000000000 = -8446744073709551616 ∧
    mulInt 10 1000000000000000000 < mulInt 9 1000000000000000000 ∧
    ¬ ((10 : Int) * 1000000000000000000 < 9 * 1000000000000000000) ∧
    finalScore 1000000000000000000 1000000000000000000 50 = 0 := by
  refine ⟨by rfl, by decide, by decide, by decide, by decide, by decide, by decide⟩

/-- C10, amended: as long as neither product overflows, that is for
`0 <= passed <= (2^63-1)/10` and `0 <= total <= (2^63-1)/9`, the comparison
`10*passed < 9*total` on wrapping 64-bit integers has the truth value of the
comparison in exact arithmetic. -/
theorem score_gate_exact_in_range (passed total : Int)
    (hp : 0 ≤ passed) (hp10 : passed ≤ maxInt / 10)
    (ht : 0 ≤ total) (ht9 : total ≤ maxInt / 9) :
    (mulInt 10 passed < mulInt 9 total ↔ 10 * passed < 9 * total) := by
  have m : maxInt = 9223372036854775807 := by unfold maxInt; norm_num
  rw [m] at hp10 ht9
  have e1 : mulInt 10 passed = 10 * passed :=
    wrapInt_of_range _ (by omega) (by rw [m]; omega)
  have e2 : mulInt 9 total = 9 * total :=
    wrapInt_of_range _ (by omega) (by rw [m]; omega)
  rw [e1, e2]

/-- Witness of the amended C10 at the largest values in range. -/
theorem score_gate_exact_in_range_witness :
    (mulInt 10 922337203685477580 < mulInt 9 1024819115206086200 ↔
      (10 : Int) * 922337203685477580 < 9 * 1024819115206086200) :=
  score_gate_exact_in_range 922337203685477580 1024819115206086200
    (by decide) (by decide) (by decide) (by decide)

/-! ## Properties of the parser -/

theorem dropLit_eq_some (lit s r : List Char) : dropLit lit s = some r ↔ s = lit ++ r := by
  induction lit generalizing s with
  | nil => simp [dropLit, eq_comm]
  | cons c lit ih =>
    cases s with
    | nil => simp [dropLit]
    | cons d s =>
      by_cases h : c = d
      · subst h
        simp [dropLit, ih]
      · simp [dropLit, h]
        intro h1
        exact absurd h1.symm h

theorem dropLit_append (lit r : List Char) : dropLit lit (lit ++ r) = some r :=
  (dropLit_eq_some lit (lit ++ r) r).2 rfl

theorem takeWhile_digits (d : List Char) (ch : Char) (rest : List Char)
    (hd : ∀ x ∈ d, x.isDigit = true) (hc : ch.isDigit = false) :
    (d ++ ch :: rest).takeWhile Char.isDigit = d := by
  induction d with
  | nil => simp [List.takeWhile, hc]
  | cons a d ih =>
    have ha : a.isDigit = true := hd a (List.mem_cons_self _ _)
    simp only [List.cons_append, List.takeWhile_cons, ha, if_true]
    rw [ih (fun x hx => hd x (List.mem_cons_of_mem _ hx))]

theorem dropWhile_digits (d : List Char) (ch : Char) (rest : List Char)
    (hd : ∀ x ∈ d, x.isDigit = true) (hc : ch.isDigit = false) :
    (d ++ ch :: rest).dropWhile Char.isDigit = ch :: rest := by
  induction d with
  | nil => simp [List.dropWhile, hc]
  | cons a d ih =>
    have ha : a.isDigit = true := hd a (List.mem_cons_self _ _)
    simp only [List.cons_append, List.dropWhile_cons, ha, if_true]
    rw [ih (fun x hx => hd x (List.mem_cons_of_mem _ hx))]

theorem isDigits_takeWhile (r : List Char) (h : r.takeWhile Char.isDigit ≠ []) :
    IsDigits (r.takeWhile Char.isDigit) :=
  ⟨h, fun _ hx => List.mem_takeWhile_imp hx⟩

/-- The anchored test pattern matches exactly the inputs of the shape
` (p/t)</strong>...` with digit runs `p`, `t`, and returns those runs. -/
theorem testRegex_eq_some (s : List Char) (m : List (List Char)) :
    testRegex s = some m ↔
      ∃ p t post, IsDigits p ∧ IsDigits t ∧
        s = (litOpen ++ p ++ litSlash ++ t ++ litClose) ++ post ∧
        m = [litOpen ++ p ++ litSlash ++ t ++ litClose, p, t] := by
  constructor
  · intro h
    unfold testRegex at h
    cases h1 : dropLit litOpen s with
    | none => simp [h1] at h
    | some r1 =>
      simp only [h1] at h
      by_cases hg1 : r1.takeWhile Char.isDigit = []
      · simp [hg1] at h
      · simp only [if_neg hg1] at h
        cases h2 : dropLit litSlash (r1.dropWhile Char.isDigit) with
        | none => simp [h2] at h
        | some r2 =>
          simp only [h2] at h
          by_cases hg2 : r2.takeWhile Char.isDigit = []
          · simp [hg2] at h
          · simp only [if_neg hg2] at h
            cases h3 : dropLit litClose (r2.dropWhile Char.isDigit) with
            | none => simp [h3] at h
            | some r3 =>
              simp only [h3] at h
              rw [dropLit_eq_some] at h1 h2 h3
              refine ⟨_, _, r3, isDigits_takeWhile r1 hg1, isDigits_takeWhile r2 hg2, ?_,
                (Option.some.inj h).symm⟩
              have e1 := List.takeWhile_append_dropWhile Char.isDigit r1
              have e2 := List.takeWhile_append_dropWhile Char.isDigit r2
              calc s = litOpen ++ r1 := h1
                _ = litOpen ++ (r1.takeWhile Char.isDigit ++ (litSlash ++ r2)) := by
                      rw [← h2, e1]
                _ = litOpen ++ (r1.takeWhile Char.isDigit ++
                      (litSlash ++ (r2.takeWhile Char.isDigit ++ (litClose ++ r3)))) := by
                      rw [← h3, e2]
                _ = _ := by simp [List.append_assoc]
  · rintro ⟨p, t, post, hp, ht, rfl, rfl⟩
    have c1 : ('/' : Char).isDigit = false := by decide
    have c2 : (')' : Char).isDigit = false := by decide
    have a1 : litOpen ++ p ++ litSlash ++ t ++ litClose ++ post
        = litOpen ++ (p ++ '/' :: (t ++ ')' :: (litClose.tail ++ post))) := by
      simp [litSlash, litClose, List.append_assoc]
    unfold testRegex
    rw [a1, dropLit_append]
    simp only [takeWhile_digits p _ _ hp.2 c1, dropWhile_digits p _ _ hp.2 c1, if_neg hp.1]
    have a2 : '/' :: (t ++ ')' :: (litClose.tail ++ post))
        = litSlash ++ (t ++ ')' :: (litClose.tail ++ post)) := rfl
    rw [a2, dropLit_append]
    simp only [takeWhile_digits t _ _ ht.2 c2, dropWhile_digits t _ _ ht.2 c2, if_neg ht.1]
    have a3 : ')' :: (litClose.tail ++ post) = litClose ++ post := rfl
    rw [a3, dropLit_append]

/-- The anchored score pattern matches exactly the inputs of the shape
` (sc)</strong>...` with a digit run `sc`, and returns that run. -/
theorem scoreRegex_eq_some (s : List Char) (m : List (List Char)) :
    scoreRegex s = some m ↔
      ∃ sc post, IsDigits sc ∧ s = (litOpen ++ sc ++ litClose) ++ post ∧
        m = [litOpen ++ sc ++ litClose, sc] := by
  constructor
  · intro h
    unfold scoreRegex at h
    cases h1 : dropLit litOpen s with
    | none => simp [h1] at h
    | some r1 =>
      simp only [h1] at h
      by_cases hg1 : r1.takeWhile Char.isDigit = []
      · simp [hg1] at h
      · simp only [if_neg hg1] at h
        cases h3 : dropLit litClose (r1.dropWhile Char.isDigit) with
        | none => simp [h3] at h
        | some r3 =>
          simp only [h3] at h
          rw [dropLit_eq_some] at h1 h3
          refine ⟨_, r3, isDigits_takeWhile r1 hg1, ?_, (Option.some.inj h).symm⟩
          have e1 := List.takeWhile_append_dropWhile Char.isDigit r1
          calc s = litOpen ++ r1 := h1
            _ = litOpen ++ (r1.takeWhile Char.isDigit ++ (litClose ++ r3)) := by
                  rw [← h3, e1]
            _ = _ := by simp [List.append_assoc]
  · rintro ⟨sc, post, hs, rfl, rfl⟩
    have c2 : (')' : Char).isDigit = false := by decide
    have a1 : litOpen ++ sc ++ litClose ++ post
        = litOpen ++ (sc ++ ')' :: (litClose.tail ++ post)) := by
      simp [litClose, List.append_assoc]
    unfold scoreRegex
    rw [a1, dropLit_append]
    simp only [takeWhile_digits sc _ _ hs.2 c2, dropWhile_digits sc _ _ hs.2 c2, if_neg hs.1]
    have a3 : ')' :: (litClose.tail ++ post) = litClose ++ post := rfl
    rw [a3, dropLit_append]

/-- The leftmost offset at which `re` matches decides `FindSubmatch`. -/
theorem FindSubmatch_leftmost (re : List Char → Option (List (List Char)))
    (pre r : List Char) (m : List (List Char)) (hm : re r = some m)
    (hpre : ∀ k, k < pre.length → re ((pre ++ r).drop k) = none) :
    FindSubmatch re (pre ++ r) = m := by
  induction pre with
  | nil =>
    cases r with
    | nil => simp [FindSubmatch, hm]
    | cons c cs => simp [FindSubmatch, hm]
  | cons a pre ih =>
    have h0 := hpre 0 (by simp)
    simp only [List.drop_zero] at h0
    simp only [List.cons_append] at h0 ⊢
    rw [FindSubmatch, h0]
    apply ih
    intro k hk
    have := hpre (k + 1) (by simpa using hk)
    simpa using this

/-- The slice that `FindSubmatch` returns is `nil`, or what `re` returns at some
offset of the input. -/
theorem FindSubmatch_cases (re : List Char → Option (List (List Char))) (s : List Char) :
    (FindSubmatch re s = [] ∧ ∀ k, k < s.length → re (s.drop k) = none) ∨
    ∃ k, k ≤ s.length ∧ re (s.drop k) = some (FindSubmatch re s) := by
  induction s with
  | nil =>
    cases h : re [] with
    | none => left; simp [FindSubmatch, h]
    | some m => right; exact ⟨0, by simp, by simp [FindSubmatch, h]⟩
  | cons c cs ih =>
    cases h : re (c :: cs) with
    | some m => right; exact ⟨0, by simp, by simp [FindSubmatch, h]⟩
    | none =>
      have e : FindSubmatch re (c :: cs) = FindSubmatch re cs := by
        rw [FindSubmatch, h]
      rw [e]
      rcases ih with ⟨h1, h2⟩ | ⟨k, hk, hre⟩
      · left
        refine ⟨h1, ?_⟩
        intro k hk
        cases k with
        | zero => simpa using h
        | succ k => simpa using h2 k (by simpa using hk)
      · right
        exact ⟨k + 1, by simpa using hk, by simpa using hre⟩

theorem testMatchAt_of_regex (s : List Char) (k : Nat) (m : List (List Char))
    (hk : k ≤ s.length) (h : testRegex (s.drop k) = some m) :
    ∃ p t, TestMatchAt s k p t ∧ m = [litOpen ++ p ++ litSlash ++ t ++ litClose, p, t] := by
  obtain ⟨p, t, post, hp, ht, hs, hm⟩ := (testRegex_eq_some _ _).1 h
  refine ⟨p, t, ⟨hp, ht, s.take k, post, by simp [hk], ?_⟩, hm⟩
  rw [List.append_assoc, ← hs, List.take_append_drop]

theorem scoreMatchAt_of_regex (s : List Char) (k : Nat) (m : List (List Char))
    (hk : k ≤ s.length) (h : scoreRegex (s.drop k) = some m) :
    ∃ sc, ScoreMatchAt s k sc ∧ m = [litOpen ++ sc ++ litClose, sc] := by
  obtain ⟨sc, post, hsc, hs, hm⟩ := (scoreRegex_eq_some _ _).1 h
  refine ⟨sc, ⟨hsc, s.take k, post, by simp [hk], ?_⟩, hm⟩
  rw [List.append_assoc, ← hs, List.take_append_drop]

theorem regex_of_testMatchAt (s : List Char) (i : Nat) (p t : List Char)
    (h : TestMatchAt s i p t) :
    i ≤ s.length ∧
    testRegex (s.drop i) = some [litOpen ++ p ++ litSlash ++ t ++ litClose, p, t] := by
  obtain ⟨hp, ht, pre, post, hlen, hs⟩ := h
  subst hlen
  subst hs
  refine ⟨by simp, ?_⟩
  rw [List.append_assoc, List.drop_left]
  exact (testRegex_eq_some _ _).2 ⟨p, t, post, hp, ht, rfl, rfl⟩

theorem regex_of_scoreMatchAt (s : List Char) (j : Nat) (sc : List Char)
    (h : ScoreMatchAt s j sc) :
    j ≤ s.length ∧ scoreRegex (s.drop j) = some [litOpen ++ sc ++ litClose, sc] := by
  obtain ⟨hsc, pre, post, hlen, hs⟩ := h
  subst hlen
  subst hs
  refine ⟨by simp, ?_⟩
  rw [List.append_assoc, List.drop_left]
  exact (scoreRegex_eq_some _ _).2 ⟨sc, post, hsc, rfl, rfl⟩

theorem not_testMatchAt (s : List Char) (k : Nat) (p t : List Char)
    (h : testRegex (s.drop k) = none) : ¬ TestMatchAt s k p t := by
  intro hm
  rw [(regex_of_testMatchAt s k p t hm).2] at h
  exact absurd h (by simp)

theorem not_scoreMatchAt (s : List Char) (k : Nat) (sc : List Char)
    (h : scoreRegex (s.drop k) = none) : ¬ ScoreMatchAt s k sc := by
  intro hm
  rw [(regex_of_scoreMatchAt s k sc hm).2] at h
  exact absurd h (by simp)

/-- With the leftmost test match at offset `i`, `FindSubmatch` returns its
submatches. -/
theorem FindSubmatch_testRegex (s : List Char) (i : Nat) (p t : List Char)
    (ht : TestMatchAt s i p t)
    (hleft : ∀ k p1 t1, k < i → ¬ TestMatchAt s k p1 t1) :
    FindSubmatch testRegex s = [litOpen ++ p ++ litSlash ++ t ++ litClose, p, t] := by
  have hre := (regex_of_testMatchAt s i p t ht).2
  obtain ⟨hp, htd, pre, post, hlen, hs⟩ := ht
  subst hlen
  rw [hs, List.append_assoc, List.drop_left] at hre
  have key := FindSubmatch_leftmost testRegex pre _ _ hre (by
    intro k hk
    cases hnone : testRegex ((pre ++ ((litOpen ++ p ++ litSlash ++ t ++ litClose) ++ post)).drop k) with
    | none => rfl
    | some m =>
      exfalso
      rw [← List.append_assoc, ← hs] at hnone
      obtain ⟨p1, t1, hm, _⟩ := testMatchAt_of_regex s k m (by
        have : pre.length ≤ s.length := by rw [hs]; simp [List.length_append]
        omega) hnone
      exact hleft k p1 t1 hk hm)
  rw [hs, List.append_assoc]
  exact key

/-- With the leftmost score match at offset `j`, `FindSubmatch` returns its
submatches. -/
theorem FindSubmatch_scoreRegex (s : List Char) (j : Nat) (sc : List Char)
    (hm : ScoreMatchAt s j sc)
    (hleft : ∀ k sc1, k < j → ¬ ScoreMatchAt s k sc1) :
    FindSubmatch scoreRegex s = [litOpen ++ sc ++ litClose, sc] := by
  have hre := (regex_of_scoreMatchAt s j sc hm).2
  obtain ⟨hsc, pre, post, hlen, hs⟩ := hm
  subst hlen
  rw [hs, List.append_assoc, List.drop_left] at hre
  have key := FindSubmatch_leftmost scoreRegex pre _ _ hre (by
    intro k hk
    cases hnone : scoreRegex ((pre ++ ((litOpen ++ sc ++ litClose) ++ post)).drop k) with
    | none => rfl
    | some m =>
      exfalso
      rw [← List.append_assoc, ← hs] at hnone
      obtain ⟨sc1, hm1, _⟩ := scoreMatchAt_of_regex s k m (by
        have : pre.length ≤ s.length := by rw [hs]; simp [List.length_append]
        omega) hnone
      exact hleft k sc1 hk hm1)
  rw [hs, List.append_assoc]
  exact key

/-- With no test match at any offset, `FindSubmatch` returns `nil`. -/
theorem FindSubmatch_testRegex_nil (s : List Char)
    (h : ∀ i p t, ¬ TestMatchAt s i p t) : FindSubmatch testRegex s = [] := by
  rcases FindSubmatch_cases testRegex s with ⟨h1, _⟩ | ⟨k, hk, hre⟩
  · exact h1
  · obtain ⟨p, t, hm, _⟩ := testMatchAt_of_regex s k _ hk hre
    exact absurd hm (h k p t)

/-- With no score match at any offset, `FindSubmatch` returns `nil`. -/
theorem FindSubmatch_scoreRegex_nil (s : List Char)
    (h : ∀ j sc, ¬ ScoreMatchAt s j sc) : FindSubmatch scoreRegex s = [] := by
  rcases FindSubmatch_cases scoreRegex s with ⟨h1, _⟩ | ⟨k, hk, hre⟩
  · exact h1
  · obtain ⟨sc, hm, _⟩ := scoreMatchAt_of_regex s k _ hk hre
    exact absurd hm (h k sc)

/-- The slice of test submatches is `nil` or has the three entries. -/
theorem FindSubmatch_testRegex_shape (s : List Char) :
    FindSubmatch testRegex s = [] ∨
    ∃ i p t, TestMatchAt s i p t ∧
      FindSubmatch testRegex s = [litOpen ++ p ++ litSlash ++ t ++ litClose, p, t] := by
  rcases FindSubmatch_cases testRegex s with ⟨h1, _⟩ | ⟨k, hk, hre⟩
  · exact Or.inl h1
  · obtain ⟨p, t, hm, he⟩ := testMatchAt_of_regex s k _ hk hre
    exact Or.inr ⟨k, p, t, hm, he⟩

/-- The slice of score submatches is `nil` or has the two entries. -/
theorem FindSubmatch_scoreRegex_shape (s : List Char) :
    FindSubmatch scoreRegex s = [] ∨
    ∃ j sc, ScoreMatchAt s j sc ∧
      FindSubmatch scoreRegex s = [litOpen ++ sc ++ litClose, sc] := by
  rcases FindSubmatch_cases scoreRegex s with ⟨h1, _⟩ | ⟨k, hk, hre⟩
  · exact Or.inl h1
  · obtain ⟨sc, hm, he⟩ := scoreMatchAt_of_regex s k _ hk hre
    exact Or.inr ⟨k, sc, hm, he⟩

/-- On a run of digits `Atoi` returns its value, unless it is out of range. -/
theorem Atoi_digits (d : List Char) (hd : IsDigits d) (hv : (digitsValue d : Int) ≤ maxInt) :
    Atoi d = .ok (digitsValue d : Int) := by
  obtain ⟨hne, hall⟩ := hd
  cases d with
  | nil => exact absurd rfl hne
  | cons a d =>
    have ha : a.isDigit = true := hall a (List.mem_cons_self _ _)
    have h1 : a ≠ '-' := by
      intro h; rw [h] at ha; exact absurd ha (by decide)
    have h2 : a ≠ '+' := by
      intro h; rw [h] at ha; exact absurd ha (by decide)
    have hall2 : (a :: d).all Char.isDigit = true := by
      rw [List.all_eq_true]; exact hall
    unfold Atoi
    split
    · rename_i heq
      exact absurd (List.cons.inj heq).1 h1
    · split
      · rename_i heq
        exact absurd (List.cons.inj heq).1 h1
      · rename_i heq
        exact absurd (List.cons.inj heq).1 h2
      · simp [hall2, hv]

/-- What `parseGradingHtml` does once both slices of submatches are known. -/
theorem parseGradingHtml_of_matches (s : List Char) (w1 p t w2 sc : List Char)
    (h1 : FindSubmatch testRegex s = [w1, p, t])
    (h2 : FindSubmatch scoreRegex s = [w2, sc]) :
    parseGradingHtml s =
      match Atoi p with
      | .error err => .ret (0, 0, 0, some err)
      | .ok successfulTests =>
        match Atoi t with
        | .error err => .ret (0, 0, 0, some err)
        | .ok totalTests =>
          match Atoi sc with
          | .error err => .ret (0, 0, 0, some err)
          | .ok score => .ret (successfulTests, totalTests, score, none) := by
  unfold parseGradingHtml
  simp only [h1, h2]
  rfl

/-- C2. Success case of `parseGradingHtml`: when the test pattern has its
leftmost match at offset `i` capturing `p` and `t`, the score pattern has its
leftmost match at offset `j` capturing `sc` (wherever `i` and `j` lie, whatever
comes later), and the three captures fit in the machine int, the parser
returns `(p, t, sc)` as numbers and no error. -/
theorem parseGradingHtml_success (s : List Char) (i j : Nat) (p t sc : List Char)
    (ht : TestMatchAt s i p t)
    (hti : ∀ k p1 t1, k < i → ¬ TestMatchAt s k p1 t1)
    (hs : ScoreMatchAt s j sc)
    (hsj : ∀ k sc1, k < j → ¬ ScoreMatchAt s k sc1)
    (hp : (digitsValue p : Int) ≤ maxInt) (htv : (digitsValue t : Int) ≤ maxInt)
    (hsc : (digitsValue sc : Int) ≤ maxInt) :
    parseGradingHtml s =
      .ret ((digitsValue p : Int), (digitsValue t : Int), (digitsValue sc : Int), none) := by
  rw [parseGradingHtml_of_matches s _ p t _ sc (FindSubmatch_testRegex s i p t ht hti)
    (FindSubmatch_scoreRegex s j sc hs hsj)]
  rw [Atoi_digits p ht.1 hp, Atoi_digits t ht.2.1 htv, Atoi_digits sc hs.1 hsc]

/-- Witness of C2: `"... (7/10)</strong> ... (65)</strong>"` yields `(7, 10, 65)`;
the test match is at offset 3, the score match at offset 23. -/
theorem parseGradingHtml_success_witness :
    parseGradingHtml "... (7/10)</strong> ... (65)</strong>".toList = .ret (7, 10, 65, none) :=
  parseGradingHtml_success "... (7/10)</strong> ... (65)</strong>".toList 3 23
    ['7'] ['1', '0'] ['6', '5']
    ⟨⟨by decide, by decide⟩, ⟨by decide, by decide⟩,
      "...".toList, " ... (65)</strong>".toList, by decide, by decide⟩
    (fun k p1 t1 hk => not_testMatchAt _ k p1 t1 (by
      have h : ∀ k, k < 3 →
          testRegex ("... (7/10)</strong> ... (65)</strong>".toList.drop k) = none := by
        decide
      exact h k hk))
    ⟨⟨by decide, by decide⟩,
      "... (7/10)</strong> ...".toList, [], by decide, by decide⟩
    (fun k sc1 hk => not_scoreMatchAt _ k sc1 (by
      have h : ∀ k, k < 23 →
          scoreRegex ("... (7/10)</strong> ... (65)</strong>".toList.drop k) = none := by
        decide
      exact h k hk))
    (by decide) (by decide) (by decide)

theorem parseGradingHtml_no_tests (s : List Char) (h : FindSubmatch testRegex s = []) :
    parseGradingHtml s =
      .ret (0, 0, 0, some (.errorf "No matches for number of tests in grading.html")) := by
  unfold parseGradingHtml
  simp [h]

theorem parseGradingHtml_no_score (s : List Char) (w1 p t : List Char)
    (h1 : FindSubmatch testRegex s = [w1, p, t]) (h2 : FindSubmatch scoreRegex s = []) :
    parseGradingHtml s =
      .ret (0, 0, 0, some (.errorf "No matches for score of tests in grading.html")) := by
  unfold parseGradingHtml
  simp [h1, h2]

/-- The parser never panics: every index into a slice of submatches is in range. -/
theorem parseGradingHtml_ne_panic (s : List Char) (msg : String) :
    parseGradingHtml s ≠ .panic msg := by
  rcases FindSubmatch_testRegex_shape s with h1 | ⟨i, p, t, _, h1⟩
  · rw [parseGradingHtml_no_tests s h1]
    exact fun h => Go.noConfusion h
  · rcases FindSubmatch_scoreRegex_shape s with h2 | ⟨j, sc, _, h2⟩
    · rw [parseGradingHtml_no_score s _ p t h1 h2]
      exact fun h => Go.noConfusion h
    · rw [parseGradingHtml_of_matches s _ p t _ sc h1 h2]
      cases Atoi p with
      | error e => exact fun h => Go.noConfusion h
      | ok a =>
        cases Atoi t with
        | error e => exact fun h => Go.noConfusion h
        | ok b =>
          cases Atoi sc with
          | error e => exact fun h => Go.noConfusion h
          | ok c => exact fun h => Go.noConfusion h

theorem testMatchAt_lt_length (s : List Char) (i : Nat) (p t : List Char)
    (h : TestMatchAt s i p t) : i < s.length := by
  obtain ⟨_, _, pre, post, hlen, hs⟩ := h
  subst hlen
  rw [hs]
  simp [List.length_append, litOpen]

/-- C3. Failure case of `parseGradingHtml`: the parser never panics (no index
into the submatch slices is out of range); with no match of the test pattern
it returns `(0,0,0)` and the error that the number of tests was not found;
with a match of the test pattern and none of the score pattern it returns
`(0,0,0)` and the error that the score was not found; and `(a/10)</strong>`,
whose would-be capture is not a number, yields an error. -/
theorem parseGradingHtml_failure :
    (∀ s msg, parseGradingHtml s ≠ .panic msg) ∧
    (∀ s, (∀ i p t, ¬ TestMatchAt s i p t) →
      parseGradingHtml s =
        .ret (0, 0, 0, some (.errorf "No matches for number of tests in grading.html"))) ∧
    (∀ s, (∃ i p t, TestMatchAt s i p t) → (∀ j sc, ¬ ScoreMatchAt s j sc) →
      parseGradingHtml s =
        .ret (0, 0, 0, some (.errorf "No matches for score of tests in grading.html"))) ∧
    parseGradingHtml "(a/10)</strong>".toList =
      .ret (0, 0, 0, some (.errorf "No matches for number of tests in grading.html")) := by
  refine ⟨parseGradingHtml_ne_panic, ?_, ?_, by decide⟩
  · intro s h
    exact parseGradingHtml_no_tests s (FindSubmatch_testRegex_nil s h)
  · rintro s ⟨i, p, t, hm⟩ hno
    rcases FindSubmatch_cases testRegex s with ⟨_, h1⟩ | ⟨k, hk, hre⟩
    · have := h1 i (testMatchAt_lt_length s i p t hm)
      rw [(regex_of_testMatchAt s i p t hm).2] at this
      exact absurd this (by simp)
    · obtain ⟨p1, t1, _, he⟩ := testMatchAt_of_regex s k _ hk hre
      exact parseGradingHtml_no_score s _ p1 t1 he (FindSubmatch_scoreRegex_nil s hno)

/-- Witness of C3: `" (7/10)</strong>"` has a test match and no score match,
`"no report"` has neither. -/
theorem parseGradingHtml_failure_witness :
    parseGradingHtml " (7/10)</strong>".toList =
      .ret (0, 0, 0, some (.errorf "No matches for score of tests in grading.html")) ∧
    parseGradingHtml "no report".toList =
      .ret (0, 0, 0, some (.errorf "No matches for number of tests in grading.html")) :=
  ⟨parseGradingHtml_failure.2.2.1 " (7/10)</strong>".toList
      ⟨0, ['7'], ['1', '0'], ⟨by decide, by decide⟩, ⟨by decide, by decide⟩,
        [], [], by decide, by decide⟩
      (fun j sc => by
        intro hm
        have hj := (regex_of_scoreMatchAt _ j sc hm)
        have h : ∀ k, k ≤ 16 → scoreRegex (" (7/10)</strong>".toList.drop k) = none := by
          decide
        have hlen : j ≤ 16 := hj.1
        rw [h j hlen] at hj
        exact absurd hj.2 (by simp)),
   parseGradingHtml_failure.2.1 "no report".toList
      (fun i p t => by
        intro hm
        have hi := (regex_of_testMatchAt _ i p t hm)
        have h : ∀ k, k ≤ 9 → testRegex ("no report".toList.drop k) = none := by
          decide
        have hlen : i ≤ 9 := hi.1
        rw [h i hlen] at hi
        exact absurd hi.2 (by simp))⟩

/-! ## Properties of the primitives -/

theorem concatText_append (a b : List String) :
    concatText (a ++ b) = concatText a ++ concatText b := by
  induction a with
  | nil => simp [concatText]
  | cons x a ih => simp [concatText, ih, String.append_assoc]

@[simp] theorem emit_exit (w : World) (e : Event) : (w.emit e).exit = w.exit := by
  unfold World.emit; split <;> rfl

@[simp] theorem emit_file (w : World) (e : Event) : (w.emit e).file = w.file := by
  unfold World.emit; split <;> rfl

@[simp] theorem emit_opens (w : World) (e : Event) : (w.emit e).opens = w.opens := by
  unfold World.emit; split <;> rfl

theorem emit_trace (w : World) (e : Event) (h : w.exit = none) :
    (w.emit e).trace = w.trace ++ [e] := by
  unfold World.emit; simp [h]

@[simp] theorem Write_exit (f : Bool) (text : String) (w : World) :
    (Write f text w).exit = w.exit := by
  unfold Write; split <;> rfl

@[simp] theorem Write_opens (f : Bool) (text : String) (w : World) :
    (Write f text w).opens = w.opens := by
  unfold Write; split <;> rfl

theorem Write_file (f : Bool) (text : String) (w : World) (h : w.exit = none) :
    (Write f text w).file = if f then w.file.map (fun old => old ++ text) else w.file := by
  unfold Write; simp [h]

theorem Write_trace (f : Bool) (text : String) (w : World) (h : w.exit = none) :
    (Write f text w).trace = w.trace ++ [.Write f text] := by
  unfold Write; simp [h]

@[simp] theorem Close_exit (w : World) : (Close w).exit = w.exit := by simp [Close]

@[simp] theorem Close_file (w : World) : (Close w).file = w.file := by simp [Close]

@[simp] theorem Close_opens (w : World) : (Close w).opens = w.opens := by simp [Close]

theorem Close_trace (w : World) (h : w.exit = none) : (Close w).trace = w.trace ++ [.Close] := by
  simp [Close, emit_trace, h]

@[simp] theorem OpenFile_exit (name : String) (mode : OpenMode) (w : World) :
    (OpenFile name mode w).2.exit = w.exit := by
  unfold OpenFile; split <;> rfl

theorem OpenFile_opens (name : String) (mode : OpenMode) (w : World) (h : w.exit = none) :
    (OpenFile name mode w).2.opens = w.opens.tail := by
  unfold OpenFile; simp [h]

theorem OpenFile_trace (name : String) (mode : OpenMode) (w : World) (h : w.exit = none) :
    (OpenFile name mode w).2.trace =
      w.trace ++ [.OpenFile name mode (OpenFile name mode w).1] := by
  unfold OpenFile; simp [h]

theorem OpenFile_appendCreate (name : String) (w : World) (h : w.exit = none) :
    (OpenFile name .appendCreate w).1 = w.opens.headD true ∧
    (OpenFile name .appendCreate w).2.file =
      if w.opens.headD true then some (w.file.getD "") else w.file := by
  unfold OpenFile; simp [h]

theorem OpenFile_truncCreate (name : String) (w : World) (h : w.exit = none) :
    (OpenFile name .truncCreate w).1 = w.opens.headD true ∧
    (OpenFile name .truncCreate w).2.file =
      if w.opens.headD true then some "" else w.file := by
  unfold OpenFile; simp [h]

theorem OpenFile_append (name : String) (w : World) (h : w.exit = none) :
    (OpenFile name .append w).1 = (w.opens.headD true && w.file.isSome) ∧
    (OpenFile name .append w).2.file = w.file := by
  unfold OpenFile; simp [h]

/-! ## Properties of `fetchResults` -/

@[simp] theorem membersLoop_exit (c : Forge) (f : Bool) (p t s : Int) (members : List String)
    (w : World) : (membersLoop c f p t s members w).exit = w.exit := by
  induction members generalizing w with
  | nil => rfl
  | cons m ms ih =>
    simp only [membersLoop]
    split
    · simp
    · rw [ih]; simp

@[simp] theorem membersLoop_opens (c : Forge) (f : Bool) (p t s : Int) (members : List String)
    (w : World) : (membersLoop c f p t s members w).opens = w.opens := by
  induction members generalizing w with
  | nil => rfl
  | cons m ms ih =>
    simp only [membersLoop]
    split
    · simp
    · rw [ih]; simp

theorem appendText_empty (f : Bool) (file : Option String) : appendText f "" file = file := by
  unfold appendText
  cases f <;> cases file <;> simp

theorem appendText_append (f : Bool) (a b : String) (file : Option String) :
    appendText f b (appendText f a file) = appendText f (a ++ b) file := by
  unfold appendText
  cases f <;> cases file <;> simp [String.append_assoc]

theorem Write_file_eq (f : Bool) (text : String) (w : World) (h : w.exit = none) :
    (Write f text w).file = appendText f text w.file := Write_file f text w h

theorem membersLoop_file (c : Forge) (f : Bool) (p t s : Int) (members : List String)
    (w : World) (h : w.exit = none) :
    (membersLoop c f p t s members w).file =
      appendText f (concatText ((recordedUsers c members).map (recordText p t s))) w.file := by
  induction members generalizing w with
  | nil => simp [membersLoop, recordedUsers, concatText, appendText_empty]
  | cons m ms ih =>
    simp only [membersLoop, recordedUsers]
    cases hu : c.getUser m with
    | error e => simp [concatText, appendText_empty]
    | ok user =>
      simp only
      rw [ih _ (by simp [h])]
      rw [Write_file_eq _ _ _ (by simp [h]), Write_file_eq _ _ _ (by simp [h])]
      simp [concatText, recordText, appendText_append, String.append_assoc]

theorem filterMap_emit_none {β : Type} (g : Event → Option β) (w : World) (e : Event)
    (hg : g e = none) : (w.emit e).trace.filterMap g = w.trace.filterMap g := by
  unfold World.emit
  split
  · rfl
  · simp [List.filterMap_append, hg]

theorem filterMap_emit_some {β : Type} (g : Event → Option β) (w : World) (e : Event) (b : β)
    (hg : g e = some b) (h : w.exit = none) :
    (w.emit e).trace.filterMap g = w.trace.filterMap g ++ [b] := by
  unfold World.emit
  simp [h, List.filterMap_append, hg]

theorem filterMap_Write {β : Type} (g : Event → Option β) (hq : Quiet g) (f : Bool)
    (text : String) (w : World) :
    (Write f text w).trace.filterMap g = w.trace.filterMap g := by
  unfold Write
  split
  · rfl
  · simp [List.filterMap_append, hq (.Write f text) (by simp) (by simp) (by simp)]

theorem filterMap_Close {β : Type} (g : Event → Option β) (hq : Quiet g) (w : World) :
    (Close w).trace.filterMap g = w.trace.filterMap g :=
  filterMap_emit_none g w .Close (hq .Close (by simp) (by simp) (by simp))

theorem filterMap_OpenFile {β : Type} (g : Event → Option β) (name : String)
    (mode : OpenMode) (hno : ∀ ok, g (.OpenFile name mode ok) = none) (w : World) :
    (OpenFile name mode w).2.trace.filterMap g = w.trace.filterMap g := by
  unfold OpenFile
  split
  · rfl
  · simp [List.filterMap_append, hno]

theorem filterMap_osExit {β : Type} (g : Event → Option β) (hq : Quiet g) (code : Int)
    (w : World) : (osExit code w).trace.filterMap g = w.trace.filterMap g := by
  unfold osExit
  split
  · rfl
  · simp [List.filterMap_append, hq (.Exit code) (by simp) (by simp) (by simp)]

theorem filterMap_goPanic {β : Type} (g : Event → Option β) (hq : Quiet g) (msg : String)
    (w : World) : (goPanic msg w).trace.filterMap g = w.trace.filterMap g := by
  unfold goPanic
  split
  · rfl
  · simp [List.filterMap_append, hq (.Panic msg) (by simp) (by simp) (by simp)]

theorem quiet_call : Quiet Event.call := by
  intro e h1 h2 h3
  cases e <;> first | rfl | exact absurd rfl (h1 _ _)

theorem quiet_lookup : Quiet Event.lookup := by
  intro e h1 h2 h3
  cases e <;> first | rfl | exact absurd rfl (h2 _)

theorem quiet_appendOpen : Quiet Event.appendOpen := by
  intro e h1 h2 h3
  cases e <;> first | rfl | exact absurd rfl (h3 _ _ _)

theorem membersLoop_filterMap {β : Type} (g : Event → Option β) (hq : Quiet g) (c : Forge)
    (f : Bool) (p t s : Int) (members : List String) (w : World) :
    (membersLoop c f p t s members w).trace.filterMap g = w.trace.filterMap g := by
  induction members generalizing w with
  | nil => rfl
  | cons m ms ih =>
    simp only [membersLoop]
    have e1 := filterMap_emit_none g w (.getUser m) (hq _ (by simp) (by simp) (by simp))
    split
    · exact e1
    · rw [ih, filterMap_Write g hq, filterMap_Write g hq, e1]

/-! ### The loop over the jobs -/

theorem jobsLoop_exit (c : Forge) (f : Bool) (project : Int) (members : List String)
    (jobs : List Job) (w : World) :
    (jobsLoop c f project members jobs w).exit = w.exit := by
  induction jobs generalizing w with
  | nil => rfl
  | cons job jobs ih =>
    simp only [jobsLoop]
    split
    · split
      · simp
      · split
        · simp
        · split
          · rename_i msg hp
            exact absurd hp (parseGradingHtml_ne_panic _ _)
          · simp
          · simp
    · exact ih w

theorem jobsLoop_opens (c : Forge) (f : Bool) (project : Int) (members : List String)
    (jobs : List Job) (w : World) :
    (jobsLoop c f project members jobs w).opens = w.opens := by
  induction jobs generalizing w with
  | nil => rfl
  | cons job jobs ih =>
    simp only [jobsLoop]
    split
    · split
      · simp
      · split
        · simp
        · split
          · rename_i msg hp
            exact absurd hp (parseGradingHtml_ne_panic _ _)
          · simp
          · simp
    · exact ih w

theorem jobsLoop_filterMap {β : Type} (g : Event → Option β) (hq : Quiet g) (c : Forge)
    (f : Bool) (project : Int) (members : List String) (jobs : List Job) (w : World) :
    (jobsLoop c f project members jobs w).trace.filterMap g = w.trace.filterMap g := by
  induction jobs generalizing w with
  | nil => rfl
  | cons job jobs ih =>
    simp only [jobsLoop]
    have e1 := filterMap_emit_none g w
      (.DownloadSingleArtifactsFile project job.ID "grading.html") (hq _ (by simp) (by simp) (by simp))
    split
    · split
      · exact e1
      · split
        · exact e1
        · split
          · rw [filterMap_goPanic g hq, e1]
          · exact e1
          · rw [membersLoop_filterMap g hq, e1]
    · exact ih w

theorem jobsLoop_file (c : Forge) (f : Bool) (project : Int) (members : List String)
    (jobs : List Job) (w : World) (h : w.exit = none) :
    (jobsLoop c f project members jobs w).file =
      appendText f (outcomeText c members (reportOutcome c project jobs)) w.file := by
  induction jobs generalizing w with
  | nil => simp [jobsLoop, reportOutcome, outcomeText, appendText_empty]
  | cons job jobs ih =>
    simp only [jobsLoop, reportOutcome]
    by_cases hn : job.Name = "Summary Report"
    · simp only [hn, if_true, List.find?_cons, decide_True]
      cases hd : c.DownloadSingleArtifactsFile project job.ID "grading.html" with
      | error e => simp [outcomeText, appendText_empty]
      | ok reader =>
        cases reader with
        | error e => simp [ReadAll, outcomeText, appendText_empty]
        | ok html =>
          simp only [ReadAll]
          cases hp : parseGradingHtml html with
          | panic msg => exact absurd hp (parseGradingHtml_ne_panic _ _)
          | ret r =>
            obtain ⟨a, b, d, e⟩ := r
            cases e with
            | some err => simp [outcomeText, appendText_empty]
            | none =>
              simp only [outcomeText]
              rw [membersLoop_file _ _ _ _ _ _ _ (by simp [h])]
              simp
    · have := ih w h
      simp only [reportOutcome] at this
      simp only [hn, if_false, List.find?_cons, decide_False]
      exact this

/-! ### One entity -/

/-- The part of `fetchResults` after the open and before the deferred close. -/
theorem fetchResults_eq (c : Forge) (cfg : AssignmentConfig) (gid : Int) (projectname : String)
    (members : List String) (w : World) :
    fetchResults c cfg gid projectname members w =
      Close (
        match c.getProjectByName (cfg.Path ++ "/" ++ projectname) with
        | .error _ =>
          ((OpenFile (getResultsJsPath cfg) .appendCreate
            (w.emit (.fetchResults projectname members))).2.emit
              (.getProjectByName (cfg.Path ++ "/" ++ projectname)))
        | .ok project =>
          match c.ListProjectPipelines project with
          | .error _ =>
            (((OpenFile (getResultsJsPath cfg) .appendCreate
              (w.emit (.fetchResults projectname members))).2.emit
                (.getProjectByName (cfg.Path ++ "/" ++ projectname))).emit
                  (.ListProjectPipelines project))
          | .ok [] =>
            (((OpenFile (getResultsJsPath cfg) .appendCreate
              (w.emit (.fetchResults projectname members))).2.emit
                (.getProjectByName (cfg.Path ++ "/" ++ projectname))).emit
                  (.ListProjectPipelines project))
          | .ok (pipeline :: _) =>
            match c.ListPipelineJobs project pipeline with
            | .error _ =>
              ((((OpenFile (getResultsJsPath cfg) .appendCreate
                (w.emit (.fetchResults projectname members))).2.emit
                  (.getProjectByName (cfg.Path ++ "/" ++ projectname))).emit
                    (.ListProjectPipelines project)).emit (.ListPipelineJobs project pipeline))
            | .ok jobs =>
              jobsLoop c
                (OpenFile (getResultsJsPath cfg) .appendCreate
                  (w.emit (.fetchResults projectname members))).1
                project members jobs
                ((((OpenFile (getResultsJsPath cfg) .appendCreate
                  (w.emit (.fetchResults projectname members))).2.emit
                    (.getProjectByName (cfg.Path ++ "/" ++ projectname))).emit
                      (.ListProjectPipelines project)).emit
                        (.ListPipelineJobs project pipeline))) := by
  rfl

theorem fetchResults_exit (c : Forge) (cfg : AssignmentConfig) (gid : Int) (projectname : String)
    (members : List String) (w : World) :
    (fetchResults c cfg gid projectname members w).exit = w.exit := by
  rw [fetchResults_eq]
  split
  · simp
  · split
    · simp
    · simp
    · split
      · simp
      · simp [jobsLoop_exit]

theorem fetchResults_opens (c : Forge) (cfg : AssignmentConfig) (gid : Int) (projectname : String)
    (members : List String) (w : World) (h : w.exit = none) :
    (fetchResults c cfg gid projectname members w).opens = w.opens.tail := by
  have ho := OpenFile_opens (getResultsJsPath cfg) .appendCreate
    (w.emit (.fetchResults projectname members)) (by simp [h])
  rw [fetchResults_eq]
  split
  · simp [ho]
  · split
    · simp [ho]
    · simp [ho]
    · split
      · simp [ho]
      · simp [jobsLoop_opens, ho]

theorem fetchResults_filterMap {β : Type} (g : Event → Option β) (hq : Quiet g) (c : Forge)
    (cfg : AssignmentConfig) (gid : Int) (projectname : String) (members : List String)
    (w : World) :
    (fetchResults c cfg gid projectname members w).trace.filterMap g =
      (((OpenFile (getResultsJsPath cfg) .appendCreate
          (w.emit (.fetchResults projectname members))).2.emit
            (.getProjectByName (cfg.Path ++ "/" ++ projectname)))).trace.filterMap g := by
  have q1 : ∀ x, g (.ListProjectPipelines x) = none := fun x => hq _ (by simp) (by simp) (by simp)
  have q2 : ∀ x y, g (.ListPipelineJobs x y) = none := fun x y => hq _ (by simp) (by simp) (by simp)
  rw [fetchResults_eq, filterMap_Close g hq]
  split
  · rfl
  · split
    · rw [filterMap_emit_none g _ _ (q1 _)]
    · rw [filterMap_emit_none g _ _ (q1 _)]
    · split
      · rw [filterMap_emit_none g _ _ (q2 _ _), filterMap_emit_none g _ _ (q1 _)]
      · rw [jobsLoop_filterMap g hq, filterMap_emit_none g _ _ (q2 _ _),
          filterMap_emit_none g _ _ (q1 _)]

/-- Every call of `fetchResults` in a running process is seen in the trace as
one entry with its two arguments. -/
theorem fetchResults_calls (c : Forge) (cfg : AssignmentConfig) (gid : Int)
    (projectname : String) (members : List String) (w : World) (h : w.exit = none) :
    calls (fetchResults c cfg gid projectname members w).trace =
      calls w.trace ++ [(projectname, members)] := by
  unfold calls
  rw [fetchResults_filterMap _ quiet_call,
    filterMap_emit_none Event.call _ (.getProjectByName (cfg.Path ++ "/" ++ projectname)) rfl,
    filterMap_OpenFile Event.call _ _ (fun _ => rfl),
    filterMap_emit_some Event.call w (.fetchResults projectname members) (projectname, members)
      rfl h]

/-- Every call of `fetchResults` in a running process looks its repository up
on the forge, once. -/
theorem fetchResults_lookups (c : Forge) (cfg : AssignmentConfig) (gid : Int)
    (projectname : String) (members : List String) (w : World) (h : w.exit = none) :
    lookups (fetchResults c cfg gid projectname members w).trace =
      lookups w.trace ++ [cfg.Path ++ "/" ++ projectname] := by
  unfold lookups
  rw [fetchResults_filterMap _ quiet_lookup,
    filterMap_emit_some Event.lookup _ (.getProjectByName (cfg.Path ++ "/" ++ projectname))
      (cfg.Path ++ "/" ++ projectname) rfl (by simp [h]),
    filterMap_OpenFile Event.lookup _ _ (fun _ => rfl),
    filterMap_emit_none Event.lookup w (.fetchResults projectname members) rfl]

/-- The file after `fetchResults`: with a valid handle the records of the
entity are appended (to the empty file when it was missing), with the nil
handle the file is as before. -/
theorem fetchResults_file (c : Forge) (cfg : AssignmentConfig) (gid : Int)
    (projectname : String) (members : List String) (w : World) (h : w.exit = none) :
    (fetchResults c cfg gid projectname members w).file =
      if w.opens.headD true then
        some (w.file.getD "" ++ entityText c cfg (projectname, members))
      else w.file := by
  have ho := OpenFile_appendCreate (getResultsJsPath cfg)
    (w.emit (.fetchResults projectname members)) (by simp [h])
  simp only [emit_opens, emit_file] at ho
  rw [fetchResults_eq]
  unfold entityText entityOutcome
  simp only [Close_file]
  split
  · simp [ho, outcomeText]
  · split
    · simp [ho, outcomeText]
    · simp [ho, outcomeText]
    · split
      · simp [ho, outcomeText]
      · rw [jobsLoop_file _ _ _ _ _ _ (by simp [h])]
        simp only [emit_file, ho.1, ho.2]
        unfold appendText
        cases hh : w.opens.headD true <;> simp

/-! ### The roster -/

theorem fetchResultsPerStudent_eq (c : Forge) (cfg : AssignmentConfig) (gid : Int) (w : World) :
    fetchResultsPerStudent c cfg gid w = processEntities c cfg gid (studentEntities cfg) w := by
  unfold fetchResultsPerStudent processEntities studentEntities
  split
  · rename_i h
    rw [List.length_eq_zero.1 h]
    rfl
  · rw [List.foldl_map]

theorem fetchResultsPerGroup_eq (c : Forge) (cfg : AssignmentConfig) (gid : Int) (w : World) :
    fetchResultsPerGroup c cfg gid w = processEntities c cfg gid (groupEntities cfg) w := by
  unfold fetchResultsPerGroup processEntities groupEntities
  split
  · rename_i h
    rw [List.length_eq_zero.1 h]
    rfl
  · rw [List.foldl_map]

theorem processEntities_cons (c : Forge) (cfg : AssignmentConfig) (gid : Int)
    (e : String × List String) (es : List (String × List String)) (w : World) :
    processEntities c cfg gid (e :: es) w =
      processEntities c cfg gid es (fetchResults c cfg gid e.1 e.2 w) := rfl

theorem processEntities_exit (c : Forge) (cfg : AssignmentConfig) (gid : Int)
    (es : List (String × List String)) (w : World) :
    (processEntities c cfg gid es w).exit = w.exit := by
  induction es generalizing w with
  | nil => rfl
  | cons e es ih => rw [processEntities_cons, ih, fetchResults_exit]

theorem processEntities_opens (c : Forge) (cfg : AssignmentConfig) (gid : Int)
    (es : List (String × List String)) (w : World) (h : w.exit = none) :
    (processEntities c cfg gid es w).opens = w.opens.drop es.length := by
  induction es generalizing w with
  | nil => rfl
  | cons e es ih =>
    rw [processEntities_cons, ih _ (by rw [fetchResults_exit]; exact h),
      fetchResults_opens _ _ _ _ _ _ h]
    simp [List.drop_tail]

theorem processEntities_calls (c : Forge) (cfg : AssignmentConfig) (gid : Int)
    (es : List (String × List String)) (w : World) (h : w.exit = none) :
    calls (processEntities c cfg gid es w).trace = calls w.trace ++ es := by
  induction es generalizing w with
  | nil => simp [processEntities]
  | cons e es ih =>
    rw [processEntities_cons, ih _ (by rw [fetchResults_exit]; exact h),
      fetchResults_calls _ _ _ _ _ _ h]
    simp

theorem processEntities_lookups (c : Forge) (cfg : AssignmentConfig) (gid : Int)
    (es : List (String × List String)) (w : World) (h : w.exit = none) :
    lookups (processEntities c cfg gid es w).trace =
      lookups w.trace ++ es.map (fun e => cfg.Path ++ "/" ++ e.1) := by
  induction es generalizing w with
  | nil => simp [processEntities]
  | cons e es ih =>
    rw [processEntities_cons, ih _ (by rw [fetchResults_exit]; exact h),
      fetchResults_lookups _ _ _ _ _ _ h]
    simp

theorem headD_of_all_true (l : List Bool) (h : ∀ b ∈ l, b = true) : l.headD true = true := by
  cases l with
  | nil => rfl
  | cons a l => exact h a (List.mem_cons_self _ _)

theorem tail_all_true (l : List Bool) (h : ∀ b ∈ l, b = true) : ∀ b ∈ l.tail, b = true :=
  fun b hb => h b (List.mem_of_mem_tail hb)

/-- With every open succeeding, the roster appends the records of its
entities, in order. -/
theorem processEntities_file (c : Forge) (cfg : AssignmentConfig) (gid : Int)
    (es : List (String × List String)) (w : World) (h : w.exit = none)
    (hopen : ∀ b ∈ w.opens, b = true) (old : String) (hf : w.file = some old) :
    (processEntities c cfg gid es w).file =
      some (old ++ concatText (es.map (entityText c cfg))) := by
  induction es generalizing w old with
  | nil => simp [processEntities, concatText, hf]
  | cons e es ih =>
    rw [processEntities_cons]
    have h1 : (fetchResults c cfg gid e.1 e.2 w).file = some (old ++ entityText c cfg e) := by
      rw [fetchResults_file _ _ _ _ _ _ h, headD_of_all_true _ hopen]
      simp [hf]
    rw [ih _ (by rw [fetchResults_exit]; exact h)
      (by rw [fetchResults_opens _ _ _ _ _ _ h]; exact tail_all_true _ hopen) _ h1]
    simp [concatText, String.append_assoc]

/-- Two running processes that agree on the records in the file and on the
outcomes of the coming opens agree on the records after the same entities. -/
theorem processEntities_congr (c : Forge) (cfg : AssignmentConfig) (gid : Int)
    (es : List (String × List String)) (w1 w2 : World)
    (h1 : w1.exit = none) (h2 : w2.exit = none) (ho : w1.opens = w2.opens)
    (hf : w1.file.getD "" = w2.file.getD "") :
    (processEntities c cfg gid es w1).file.getD "" =
      (processEntities c cfg gid es w2).file.getD "" := by
  induction es generalizing w1 w2 with
  | nil => exact hf
  | cons e es ih =>
    rw [processEntities_cons, processEntities_cons]
    apply ih
    · rw [fetchResults_exit]; exact h1
    · rw [fetchResults_exit]; exact h2
    · rw [fetchResults_opens _ _ _ _ _ _ h1, fetchResults_opens _ _ _ _ _ _ h2, ho]
    · rw [fetchResults_file _ _ _ _ _ _ h1, fetchResults_file _ _ _ _ _ _ h2, ho]
      cases w2.opens.headD true <;> simp [hf]

theorem entityText_of_not_graded (c : Forge) (cfg : AssignmentConfig)
    (e : String × List String)
    (hfail : (entityOutcome c cfg e.1).isGraded = false) :
    entityText c cfg e = "" := by
  unfold entityText
  cases ho : entityOutcome c cfg e.1 <;>
    first | rfl | (rw [ho] at hfail; exact absurd hfail (by simp [EntityOutcome.isGraded]))

/-- An entity without a graded report leaves the records in the file as they
are. -/
theorem fetchResults_not_graded (c : Forge) (cfg : AssignmentConfig) (gid : Int)
    (e : String × List String) (w : World) (h : w.exit = none)
    (hfail : (entityOutcome c cfg e.1).isGraded = false) :
    (fetchResults c cfg gid e.1 e.2 w).file.getD "" = w.file.getD "" := by
  rw [fetchResults_file _ _ _ _ _ _ h, entityText_of_not_graded c cfg e hfail]
  cases w.opens.headD true <;> simp

/-- Taking an entity without a graded report out of the roster, together with
the open made for it, does not change the records in the file. -/
theorem processEntities_skip (c : Forge) (cfg : AssignmentConfig) (gid : Int)
    (e : String × List String) (pre post : List (String × List String))
    (hfail : (entityOutcome c cfg e.1).isGraded = false)
    (w1 w2 : World) (h1 : w1.exit = none) (h2 : w2.exit = none)
    (obsPre : List Bool) (b : Bool) (obsRest : List Bool) (hlen : obsPre.length = pre.length)
    (ho1 : w1.opens = obsPre ++ b :: obsRest) (ho2 : w2.opens = obsPre ++ obsRest)
    (hf : w1.file.getD "" = w2.file.getD "") :
    (processEntities c cfg gid (pre ++ e :: post) w1).file.getD "" =
      (processEntities c cfg gid (pre ++ post) w2).file.getD "" := by
  induction pre generalizing w1 w2 obsPre with
  | nil =>
    have : obsPre = [] := List.length_eq_zero.1 hlen
    subst this
    simp only [List.nil_append] at ho1 ho2 ⊢
    rw [processEntities_cons]
    apply processEntities_congr
    · rw [fetchResults_exit]; exact h1
    · exact h2
    · rw [fetchResults_opens _ _ _ _ _ _ h1, ho1, ho2]; rfl
    · rw [fetchResults_not_graded c cfg gid e w1 h1 hfail]; exact hf
  | cons x pre ih =>
    cases obsPre with
    | nil => simp at hlen
    | cons o obsPre =>
      simp only [List.cons_append] at ho1 ho2 ⊢
      rw [processEntities_cons, processEntities_cons]
      apply ih _ _ (by rw [fetchResults_exit]; exact h1) (by rw [fetchResults_exit]; exact h2)
        obsPre (by simpa using hlen)
      · rw [fetchResults_opens _ _ _ _ _ _ h1, ho1]; rfl
      · rw [fetchResults_opens _ _ _ _ _ _ h2, ho2]; rfl
      · rw [fetchResults_file _ _ _ _ _ _ h1, fetchResults_file _ _ _ _ _ _ h2, ho1, ho2]
        cases o <;> simp [hf]

/-! ### `FetchResults` -/

theorem FetchResults_error (c : Forge) (cfg : AssignmentConfig) (w : World) (err : GoError)
    (hg : c.getGroupID cfg = .error err) :
    FetchResults c cfg w = osExit 1 (w.emit .getGroupID) := by
  unfold FetchResults
  simp only [hg]

theorem FetchResults_ok (c : Forge) (cfg : AssignmentConfig) (w : World) (gid : Int)
    (hg : c.getGroupID cfg = .ok gid) :
    FetchResults c cfg w =
      writeTrailer cfg
        (match cfg.Per with
          | .PerGroup => fetchResultsPerGroup c cfg gid (writeHeader cfg (w.emit .getGroupID))
          | .PerStudent => fetchResultsPerStudent c cfg gid (writeHeader cfg (w.emit .getGroupID))
          | .other _ => osExit 1 (writeHeader cfg (w.emit .getGroupID))) := by
  unfold FetchResults
  simp only [hg]
  rfl

theorem osExit_alive (code : Int) (w : World) (h : w.exit = none) :
    (osExit code w).exit = some code ∧ (osExit code w).file = w.file ∧
    (osExit code w).opens = w.opens := by
  unfold osExit; simp [h]

@[simp] theorem writeHeader_exit (cfg : AssignmentConfig) (w : World) :
    (writeHeader cfg w).exit = w.exit := by
  simp [writeHeader]

theorem writeHeader_opens (cfg : AssignmentConfig) (w : World) (h : w.exit = none) :
    (writeHeader cfg w).opens = w.opens.tail := by
  simp [writeHeader, OpenFile_opens _ _ _ h]

theorem writeHeader_file (cfg : AssignmentConfig) (w : World) (h : w.exit = none) :
    (writeHeader cfg w).file = if w.opens.headD true then some headerLine else w.file := by
  have ho := OpenFile_truncCreate (getResultsJsPath cfg) w h
  simp only [writeHeader, Close_file]
  rw [Write_file_eq _ _ _ (by simp [h]), ho.1, ho.2]
  unfold appendText
  cases w.opens.headD true <;> simp

theorem writeHeader_filterMap {β : Type} (g : Event → Option β) (hq : Quiet g)
    (cfg : AssignmentConfig)
    (hno : ∀ ok, g (.OpenFile (getResultsJsPath cfg) .truncCreate ok) = none) (w : World) :
    (writeHeader cfg w).trace.filterMap g = w.trace.filterMap g := by
  unfold writeHeader
  rw [filterMap_Close g hq, filterMap_Write g hq, filterMap_OpenFile g _ _ hno]

theorem foldl_Write_exit (f : Bool) (lines : List String) (w : World) :
    (lines.foldl (fun w line => Write f line w) w).exit = w.exit := by
  induction lines generalizing w with
  | nil => rfl
  | cons l ls ih => rw [List.foldl_cons, ih, Write_exit]

theorem foldl_Write_file (f : Bool) (lines : List String) (w : World) (h : w.exit = none) :
    (lines.foldl (fun w line => Write f line w) w).file =
      appendText f (concatText lines) w.file := by
  induction lines generalizing w with
  | nil => simp [concatText, appendText_empty]
  | cons l ls ih =>
    rw [List.foldl_cons, ih _ (by simp [h]), Write_file_eq _ _ _ h, appendText_append]
    rfl

theorem foldl_Write_trace (f : Bool) (lines : List String) (w : World) (h : w.exit = none) :
    (lines.foldl (fun w line => Write f line w) w).trace =
      w.trace ++ lines.map (fun line => Event.Write f line) := by
  induction lines generalizing w with
  | nil => simp
  | cons l ls ih =>
    rw [List.foldl_cons, ih _ (by simp [h]), Write_trace _ _ _ h]
    simp

theorem foldl_Write_filterMap {β : Type} (g : Event → Option β) (hq : Quiet g) (f : Bool)
    (lines : List String) (w : World) :
    (lines.foldl (fun w line => Write f line w) w).trace.filterMap g = w.trace.filterMap g := by
  induction lines generalizing w with
  | nil => rfl
  | cons l ls ih => rw [List.foldl_cons, ih, filterMap_Write g hq]

@[simp] theorem writeTrailer_exit (cfg : AssignmentConfig) (w : World) :
    (writeTrailer cfg w).exit = w.exit := by
  simp [writeTrailer, foldl_Write_exit]

theorem writeTrailer_filterMap {β : Type} (g : Event → Option β) (hq : Quiet g)
    (cfg : AssignmentConfig)
    (hno : ∀ ok, g (.OpenFile (getResultsJsPath cfg) .append ok) = none) (w : World) :
    (writeTrailer cfg w).trace.filterMap g = w.trace.filterMap g := by
  unfold writeTrailer
  rw [filterMap_Close g hq, foldl_Write_filterMap g hq, filterMap_OpenFile g _ _ hno]

theorem writeTrailer_file (cfg : AssignmentConfig) (w : World) (h : w.exit = none) :
    (writeTrailer cfg w).file =
      appendText (w.opens.headD true && w.file.isSome) (concatText trailerLines) w.file := by
  have ho := OpenFile_append (getResultsJsPath cfg) w h
  simp only [writeTrailer, Close_file]
  rw [foldl_Write_file _ _ _ (by simp [h]), ho.1, ho.2]

/-- The trace of the trailer part: the open, the eleven writes, the close. -/
theorem writeTrailer_trace (cfg : AssignmentConfig) (w : World) (h : w.exit = none) :
    (writeTrailer cfg w).trace =
      w.trace ++ [.OpenFile (getResultsJsPath cfg) .append (w.opens.headD true && w.file.isSome)]
        ++ trailerLines.map (fun line => Event.Write (w.opens.headD true && w.file.isSome) line)
        ++ [.Close] := by
  have ho := OpenFile_append (getResultsJsPath cfg) w h
  have ht := OpenFile_trace (getResultsJsPath cfg) .append w h
  unfold writeTrailer
  rw [Close_trace _ (by simp [foldl_Write_exit, h]), foldl_Write_trace _ _ _ (by simp [h]),
    ht, ho.1]

/-- A process that has ended does nothing in the trailer part. -/
theorem writeTrailer_ended (cfg : AssignmentConfig) (w : World) (code : Int)
    (h : w.exit = some code) : writeTrailer cfg w = w := by
  have e1 : OpenFile (getResultsJsPath cfg) .append w = (false, w) := by
    unfold OpenFile; simp [h]
  have e2 : ∀ (lines : List String),
      lines.foldl (fun w line => Write false line w) w = w := by
    intro lines
    induction lines with
    | nil => rfl
    | cons l ls ih =>
      rw [List.foldl_cons]
      have : Write false l w = w := by unfold Write; simp [h]
      rw [this, ih]
  unfold writeTrailer
  rw [e1]
  simp only
  rw [e2]
  unfold Close World.emit
  simp [h]

/-! ## Entity resolution and failure isolation -/

theorem fetchResultsPerStudent_calls (c : Forge) (cfg : AssignmentConfig) (gid : Int)
    (w : World) (h : w.exit = none) :
    calls (fetchResultsPerStudent c cfg gid w).trace =
      calls w.trace ++ cfg.Students.map (fun student => (cfg.Name ++ "-" ++ student, [student])) := by
  rw [fetchResultsPerStudent_eq, processEntities_calls _ _ _ _ _ h]; rfl

theorem fetchResultsPerGroup_calls (c : Forge) (cfg : AssignmentConfig) (gid : Int)
    (w : World) (h : w.exit = none) :
    calls (fetchResultsPerGroup c cfg gid w).trace =
      calls w.trace ++ cfg.Groups.map (fun grp => (cfg.Name ++ "-" ++ grp.Name, grp.Members)) := by
  rw [fetchResultsPerGroup_eq, processEntities_calls _ _ _ _ _ h]; rfl

/-- C4. Entity resolution: in a running process `fetchResultsPerStudent` calls
`fetchResults` exactly once per student, in roster order, with the repository
name `<Name>-<student>` and the member list `[student]`, and
`fetchResultsPerGroup` calls it exactly once per group, in roster order, with
the repository name `<Name>-<group name>` and the members of the group in their
order; with an empty roster there is no call. -/
theorem entity_resolution (c : Forge) (cfg : AssignmentConfig) (gid : Int) (w : World)
    (h : w.exit = none) :
    calls (fetchResultsPerStudent c cfg gid w).trace =
      calls w.trace ++ cfg.Students.map (fun student => (cfg.Name ++ "-" ++ student, [student])) ∧
    calls (fetchResultsPerGroup c cfg gid w).trace =
      calls w.trace ++ cfg.Groups.map (fun grp => (cfg.Name ++ "-" ++ grp.Name, grp.Members)) ∧
    (cfg.Students = [] → calls (fetchResultsPerStudent c cfg gid w).trace = calls w.trace) ∧
    (cfg.Groups = [] → calls (fetchResultsPerGroup c cfg gid w).trace = calls w.trace) := by
  have h1 := fetchResultsPerStudent_calls c cfg gid w h
  have h2 := fetchResultsPerGroup_calls c cfg gid w h
  refine ⟨h1, h2, ?_, ?_⟩
  · intro he
    rw [h1, he]; simp
  · intro he
    rw [h2, he]; simp

/-- Witness of C4: assignment `hw1` with the students alice and bob, and with
the group g1 of carol and dave. -/
theorem entity_resolution_witness :
    calls (fetchResultsPerStudent sampleForge
        { sampleCfg with Students := ["alice", "bob"] } 1 sampleWorld).trace =
      [("hw1-alice", ["alice"]), ("hw1-bob", ["bob"])] ∧
    calls (fetchResultsPerGroup sampleForge
        { sampleCfg with Groups := [⟨"g1", ["carol", "dave"]⟩] } 1 sampleWorld).trace =
      [("hw1-g1", ["carol", "dave"])] :=
  ⟨(entity_resolution sampleForge { sampleCfg with Students := ["alice", "bob"] } 1
      sampleWorld rfl).1,
   (entity_resolution sampleForge { sampleCfg with Groups := [⟨"g1", ["carol", "dave"]⟩] } 1
      sampleWorld rfl).2.1⟩

theorem fetchResults_cfg (c : Forge) (cfg cfg1 : AssignmentConfig) (hp : cfg1.Path = cfg.Path)
    (gid : Int) (projectname : String) (members : List String) (w : World) :
    fetchResults c cfg1 gid projectname members w =
      fetchResults c cfg gid projectname members w := by
  rw [fetchResults_eq, fetchResults_eq]
  simp only [getResultsJsPath, hp]

theorem processEntities_cfg (c : Forge) (cfg cfg1 : AssignmentConfig) (hp : cfg1.Path = cfg.Path)
    (gid : Int) (es : List (String × List String)) (w : World) :
    processEntities c cfg1 gid es w = processEntities c cfg gid es w := by
  induction es generalizing w with
  | nil => rfl
  | cons e es ih =>
    rw [processEntities_cons, processEntities_cons, ih, fetchResults_cfg c cfg cfg1 hp]

/-- C5. Entity-level failure isolation. An entity for which no report is
obtained (the repository lookup, the pipeline listing, the job listing, the
artifact download or the parse fails, or there is no pipeline or no summary
job) adds no record to the file and does not end the process; the roster
loop goes on to call `fetchResults` for every entity, the later ones
included; and the records in the file after the loop are those of the roster
without that entity, the opens for the other entities having the same
outcomes. Stated for both roster modes. -/
theorem entity_failure_isolation (c : Forge) (cfg : AssignmentConfig) (gid : Int) (w : World)
    (h : w.exit = none) :
    (∀ (e : String × List String),
      (entityOutcome c cfg e.1).isGraded = false →
      (fetchResults c cfg gid e.1 e.2 w).file.getD "" = w.file.getD "" ∧
      (fetchResults c cfg gid e.1 e.2 w).exit = none) ∧
    (∀ (pre post : List String) (s : String) (obsPre obsRest : List Bool) (b : Bool),
      cfg.Students = pre ++ s :: post →
      (entityOutcome c cfg (cfg.Name ++ "-" ++ s)).isGraded = false →
      obsPre.length = pre.length → w.opens = obsPre ++ b :: obsRest →
      (fetchResultsPerStudent c cfg gid w).exit = none ∧
      calls (fetchResultsPerStudent c cfg gid w).trace =
        calls w.trace ++
          (pre ++ s :: post).map (fun student => (cfg.Name ++ "-" ++ student, [student])) ∧
      (fetchResultsPerStudent c cfg gid w).file.getD "" =
        (fetchResultsPerStudent c { cfg with Students := pre ++ post } gid
          { w with opens := obsPre ++ obsRest }).file.getD "") ∧
    (∀ (pre post : List Group) (g : Group) (obsPre obsRest : List Bool) (b : Bool),
      cfg.Groups = pre ++ g :: post →
      (entityOutcome c cfg (cfg.Name ++ "-" ++ g.Name)).isGraded = false →
      obsPre.length = pre.length → w.opens = obsPre ++ b :: obsRest →
      (fetchResultsPerGroup c cfg gid w).exit = none ∧
      calls (fetchResultsPerGroup c cfg gid w).trace =
        calls w.trace ++
          (pre ++ g :: post).map (fun grp => (cfg.Name ++ "-" ++ grp.Name, grp.Members)) ∧
      (fetchResultsPerGroup c cfg gid w).file.getD "" =
        (fetchResultsPerGroup c { cfg with Groups := pre ++ post } gid
          { w with opens := obsPre ++ obsRest }).file.getD "") := by
  refine ⟨?_, ?_, ?_⟩
  · intro e hfail
    exact ⟨fetchResults_not_graded c cfg gid e w h hfail, by rw [fetchResults_exit]; exact h⟩
  · intro pre post s obsPre obsRest b hst hfail hlen ho
    refine ⟨?_, ?_, ?_⟩
    · rw [fetchResultsPerStudent_eq, processEntities_exit]; exact h
    · rw [← hst]; exact fetchResultsPerStudent_calls c cfg gid w h
    · rw [fetchResultsPerStudent_eq, fetchResultsPerStudent_eq,
        processEntities_cfg c cfg _ rfl]
      have e1 : studentEntities cfg =
          pre.map (fun student => (cfg.Name ++ "-" ++ student, [student])) ++
            (cfg.Name ++ "-" ++ s, [s]) ::
            post.map (fun student => (cfg.Name ++ "-" ++ student, [student])) := by
        simp [studentEntities, hst]
      have e2 : studentEntities { cfg with Students := pre ++ post } =
          pre.map (fun student => (cfg.Name ++ "-" ++ student, [student])) ++
            post.map (fun student => (cfg.Name ++ "-" ++ student, [student])) := by
        simp [studentEntities]
      rw [e1, e2]
      exact processEntities_skip c cfg gid (cfg.Name ++ "-" ++ s, [s]) _ _ hfail w _ h h
        obsPre b obsRest (by simpa using hlen) ho rfl rfl
  · intro pre post g obsPre obsRest b hst hfail hlen ho
    refine ⟨?_, ?_, ?_⟩
    · rw [fetchResultsPerGroup_eq, processEntities_exit]; exact h
    · rw [← hst]; exact fetchResultsPerGroup_calls c cfg gid w h
    · rw [fetchResultsPerGroup_eq, fetchResultsPerGroup_eq,
        processEntities_cfg c cfg _ rfl]
      have e1 : groupEntities cfg =
          pre.map (fun grp => (cfg.Name ++ "-" ++ grp.Name, grp.Members)) ++
            (cfg.Name ++ "-" ++ g.Name, g.Members) ::
            post.map (fun grp => (cfg.Name ++ "-" ++ grp.Name, grp.Members)) := by
        simp [groupEntities, hst]
      have e2 : groupEntities { cfg with Groups := pre ++ post } =
          pre.map (fun grp => (cfg.Name ++ "-" ++ grp.Name, grp.Members)) ++
            post.map (fun grp => (cfg.Name ++ "-" ++ grp.Name, grp.Members)) := by
        simp [groupEntities]
      rw [e1, e2]
      exact processEntities_skip c cfg gid (cfg.Name ++ "-" ++ g.Name, g.Members) _ _ hfail
        w _ h h obsPre b obsRest (by simpa using hlen) ho rfl rfl

/-- Witness of C5: on `sampleForge` the repository of bob is not found; alice,
who comes after bob in the roster, is processed and her record is appended, as
it is with the roster `[alice]`. -/
theorem entity_failure_isolation_witness :
    (fetchResultsPerStudent sampleForge sampleCfg 1
        { sampleWorld with opens := [true, true] }).exit = none ∧
    calls (fetchResultsPerStudent sampleForge sampleCfg 1
        { sampleWorld with opens := [true, true] }).trace =
      [("hw1-bob", ["bob"]), ("hw1-alice", ["alice"])] ∧
    (fetchResultsPerStudent sampleForge sampleCfg 1
        { sampleWorld with opens := [true, true] }).file.getD "" =
      (fetchResultsPerStudent sampleForge { sampleCfg with Students := ["alice"] } 1
        { sampleWorld with opens := [true] }).file.getD "" ∧
    (fetchResultsPerStudent sampleForge sampleCfg 1
        { sampleWorld with opens := [true, true] }).file =
      some "old scores// alice;alice;9;10;65\nscoreMap[\"alice\"] = 65;\n" ∧
    entityOutcome sampleForge sampleCfg "hw1-bob" = .lookupFailed :=
  ⟨((entity_failure_isolation sampleForge sampleCfg 1
        { sampleWorld with opens := [true, true] } rfl).2.1
      [] ["alice"] "bob" [] [true] true rfl (by decide) rfl rfl).1,
   ((entity_failure_isolation sampleForge sampleCfg 1
        { sampleWorld with opens := [true, true] } rfl).2.1
      [] ["alice"] "bob" [] [true] true rfl (by decide) rfl rfl).2.1,
   ((entity_failure_isolation sampleForge sampleCfg 1
        { sampleWorld with opens := [true, true] } rfl).2.1
      [] ["alice"] "bob" [] [true] true rfl (by decide) rfl rfl).2.2,
   by decide, by decide⟩

theorem recordedUsers_until_failure (c : Forge) (recorded rest : List String)
    (failing : String) (users : List User) (err : GoError)
    (hrec : recorded.map c.getUser = users.map Except.ok)
    (hfail : c.getUser failing = .error err) :
    recordedUsers c (recorded ++ failing :: rest) = users := by
  induction recorded generalizing users with
  | nil =>
    cases users with
    | nil => simp [recordedUsers, hfail]
    | cons u us => simp at hrec
  | cons m ms ih =>
    cases users with
    | nil => simp at hrec
    | cons u us =>
      simp only [List.map_cons, List.cons.injEq] at hrec
      simp only [List.cons_append, recordedUsers, hrec.1]
      exact congrArg (fun l => u :: l) (ih us hrec.2)

theorem recordedUsers_all (c : Forge) (members : List String) (users : List User)
    (hrec : members.map c.getUser = users.map Except.ok) :
    recordedUsers c members = users := by
  induction members generalizing users with
  | nil =>
    cases users with
    | nil => rfl
    | cons u us => simp at hrec
  | cons m ms ih =>
    cases users with
    | nil => simp at hrec
    | cons u us =>
      simp only [List.map_cons, List.cons.injEq] at hrec
      simp only [recordedUsers, hrec.1]
      exact congrArg (fun l => u :: l) (ih us hrec.2)

/-- C6, as stated, fails: on `sampleForge` the group g1 has a graded report, the
lookup of its second member dave fails and the lookup of its third member erin
would succeed, yet after `fetchResults` the file holds the record of carol
only, and erin was never looked up. -/
theorem member_isolation_counterexample :
    entityOutcome sampleForge sampleCfg "hw1-g1" = .graded 9 10 65 ∧
    sampleForge.getUser "dave" = .error (.remote "404 User Not Found") ∧
    sampleForge.getUser "erin" = .ok ⟨"erin", "erin"⟩ ∧
    (fetchResults sampleForge sampleCfg 1 "hw1-g1" ["carol", "dave", "erin"] sampleWorld).file =
      some "old scores// carol;carol;9;10;65\nscoreMap[\"carol\"] = 65;\n" ∧
    Event.getUser "erin" ∉
      (fetchResults sampleForge sampleCfg 1 "hw1-g1" ["carol", "dave", "erin"] sampleWorld).trace := by
  refine ⟨by decide, rfl, rfl, by decide, by decide⟩

/-- C6, amended: for an entity whose report parses, with a valid handle on the
output file, a failed user lookup ends the processing of the entity: the
records appended are those of the members before the first member whose lookup
fails, in member order; that member and all members after it get no record.
When no lookup fails, every member gets a record. -/
theorem member_failure_ends_entity (c : Forge) (cfg : AssignmentConfig) (gid : Int)
    (projectname : String) (p t s : Int) (w : World)
    (h : w.exit = none) (hopen : w.opens.headD true = true)
    (hout : entityOutcome c cfg projectname = .graded p t s) :
    (∀ (recorded rest : List String) (failing : String) (users : List User) (err : GoError),
      recorded.map c.getUser = users.map Except.ok →
      c.getUser failing = .error err →
      (fetchResults c cfg gid projectname (recorded ++ failing :: rest) w).file =
        some (w.file.getD "" ++ concatText (users.map (recordText p t s)))) ∧
    (∀ (members : List String) (users : List User),
      members.map c.getUser = users.map Except.ok →
      (fetchResults c cfg gid projectname members w).file =
        some (w.file.getD "" ++ concatText (users.map (recordText p t s)))) := by
  constructor
  · intro recorded rest failing users err hrec hfail
    rw [fetchResults_file _ _ _ _ _ _ h, hopen]
    simp only [if_true, entityText, hout, outcomeText]
    rw [recordedUsers_until_failure c recorded rest failing users err hrec hfail]
  · intro members users hrec
    rw [fetchResults_file _ _ _ _ _ _ h, hopen]
    simp only [if_true, entityText, hout, outcomeText]
    rw [recordedUsers_all c members users hrec]

/-- Witness of the amended C6: group g1 of `sampleCfg`, carol before the
failing dave, erin after. -/
theorem member_failure_ends_entity_witness :
    (fetchResults sampleForge sampleCfg 1 "hw1-g1" (["carol"] ++ "dave" :: ["erin"])
        sampleWorld).file =
      some (sampleWorld.file.getD "" ++
        concatText ([(⟨"carol", "carol"⟩ : User)].map (recordText 9 10 65))) :=
  (member_failure_ends_entity sampleForge sampleCfg 1 "hw1-g1" 9 10 65 sampleWorld rfl rfl
      (by decide)).1
    ["carol"] ["erin"] "dave" [⟨"carol", "carol"⟩] (.remote "404 User Not Found") rfl rfl

/-! ## The output file -/

theorem roster_eq (c : Forge) (cfg : AssignmentConfig) (gid : Int) (w : World)
    (hper : cfg.Per = .PerStudent ∨ cfg.Per = .PerGroup) :
    (match cfg.Per with
      | .PerGroup => fetchResultsPerGroup c cfg gid w
      | .PerStudent => fetchResultsPerStudent c cfg gid w
      | .other _ => osExit 1 w) = processEntities c cfg gid (entities cfg) w := by
  unfold entities
  rcases hper with hp | hp
  · simp only [hp]; exact fetchResultsPerStudent_eq c cfg gid w
  · simp only [hp]; exact fetchResultsPerGroup_eq c cfg gid w

/-- C7, as stated, fails: with the roster mode `other "pair"` the run ends with
status 1, but the output file left by an earlier run has been truncated and
holds the header by then. -/
theorem unknown_mode_counterexample :
    (FetchResults sampleForge { sampleCfg with Per := .other "pair" } sampleWorld).exit = some 1 ∧
    sampleWorld.file = some "old scores" ∧
    (FetchResults sampleForge { sampleCfg with Per := .other "pair" } sampleWorld).file =
      some "scoreMap = \x7b\x7d;\n" ∧
    (FetchResults sampleForge { sampleCfg with Per := .other "pair" } sampleWorld).file ≠
      sampleWorld.file := by
  refine ⟨by decide, by decide, by decide, by decide⟩

/-- C7, amended: with a roster mode that is neither `PerGroup` nor `PerStudent`
the run ends with exit status 1, no entity is processed, no repository is
looked up and no trailer is written; but the header is written before the mode
is looked at: when the group lookup and the open succeed, the file holds
exactly the header line at exit. It is left as it was only when the group
lookup or the open fails. -/
theorem unknown_mode (c : Forge) (cfg : AssignmentConfig) (w : World) (v : String)
    (h : w.exit = none) (hper : cfg.Per = .other v) :
    (FetchResults c cfg w).exit = some 1 ∧
    calls (FetchResults c cfg w).trace = calls w.trace ∧
    lookups (FetchResults c cfg w).trace = lookups w.trace ∧
    (∀ gid, c.getGroupID cfg = .ok gid → w.opens.headD true = true →
      (FetchResults c cfg w).file = some headerLine) ∧
    (∀ gid, c.getGroupID cfg = .ok gid → w.opens.headD true = false →
      (FetchResults c cfg w).file = w.file) ∧
    (∀ err, c.getGroupID cfg = .error err → (FetchResults c cfg w).file = w.file) := by
  have h1 : (w.emit .getGroupID).exit = none := by simp [h]
  have c1 : calls (w.emit .getGroupID).trace = calls w.trace :=
    filterMap_emit_none Event.call w .getGroupID rfl
  have l1 : lookups (w.emit .getGroupID).trace = lookups w.trace :=
    filterMap_emit_none Event.lookup w .getGroupID rfl
  cases hg : c.getGroupID cfg with
  | error err =>
    rw [FetchResults_error c cfg w err hg]
    have hx := osExit_alive 1 (w.emit .getGroupID) h1
    refine ⟨hx.1, ?_, ?_, ?_, ?_, ?_⟩
    · unfold calls; rw [filterMap_osExit _ quiet_call]; exact c1
    · unfold lookups; rw [filterMap_osExit _ quiet_lookup]; exact l1
    · intro gid hgid; exact absurd hgid (by simp)
    · intro gid hgid; exact absurd hgid (by simp)
    · intro _ _; rw [hx.2.1]; simp
  | ok gid =>
    rw [FetchResults_ok c cfg w gid hg]
    simp only [hper]
    have h2 : (writeHeader cfg (w.emit .getGroupID)).exit = none := by simp [h]
    have hx := osExit_alive 1 (writeHeader cfg (w.emit .getGroupID)) h2
    rw [writeTrailer_ended cfg _ 1 hx.1]
    have hf := writeHeader_file cfg (w.emit .getGroupID) h1
    simp only [emit_opens, emit_file] at hf
    refine ⟨hx.1, ?_, ?_, ?_, ?_, ?_⟩
    · unfold calls
      rw [filterMap_osExit _ quiet_call, writeHeader_filterMap _ quiet_call _ (fun _ => rfl)]; exact c1
    · unfold lookups
      rw [filterMap_osExit _ quiet_lookup, writeHeader_filterMap _ quiet_lookup _ (fun _ => rfl)]; exact l1
    · intro _ _ ho; rw [hx.2.1, hf, ho]; rfl
    · intro _ _ ho; rw [hx.2.1, hf, ho]; rfl
    · intro err herr; exact absurd herr (by simp)

/-- Witness of the amended C7: `sampleCfg` with the roster mode `other "pair"`. -/
theorem unknown_mode_witness :
    (FetchResults sampleForge { sampleCfg with Per := .other "pair" } sampleWorld).exit = some 1 ∧
    calls (FetchResults sampleForge { sampleCfg with Per := .other "pair" } sampleWorld).trace =
      calls sampleWorld.trace ∧
    (FetchResults sampleForge { sampleCfg with Per := .other "pair" } sampleWorld).file =
      some headerLine :=
  ⟨(unknown_mode sampleForge { sampleCfg with Per := .other "pair" } sampleWorld "pair"
      rfl rfl).1,
   (unknown_mode sampleForge { sampleCfg with Per := .other "pair" } sampleWorld "pair"
      rfl rfl).2.1,
   (unknown_mode sampleForge { sampleCfg with Per := .other "pair" } sampleWorld "pair"
      rfl rfl).2.2.2.1 1 rfl rfl⟩

theorem drop_all_true (l : List Bool) (n : Nat) (h : ∀ b ∈ l, b = true) :
    ∀ b ∈ l.drop n, b = true :=
  fun b hb => h b (List.mem_of_mem_drop hb)

theorem concatText_empty (l : List String) (h : ∀ x ∈ l, x = "") : concatText l = "" := by
  induction l with
  | nil => rfl
  | cons a l ih =>
    simp only [concatText]
    rw [h a (List.mem_cons_self _ _), ih (fun x hx => h x (List.mem_cons_of_mem _ hx))]
    rfl

/-- C8, as stated, fails: on a forge without the group of the assignment the
run ends at the group lookup; the roster mode is valid and no open fails (none
is made), but the file is left as it was instead of holding header, records
and trailer. -/
theorem output_structure_counterexample :
    sampleCfg.Per = .PerStudent ∧
    (∀ b ∈ sampleWorld.opens, b = true) ∧
    (FetchResults sampleForgeNoGroup sampleCfg sampleWorld).trace = [.getGroupID, .Exit 1] ∧
    (FetchResults sampleForgeNoGroup sampleCfg sampleWorld).file = some "old scores" ∧
    (FetchResults sampleForgeNoGroup sampleCfg sampleWorld).file ≠
      some (headerLine ++
        concatText ((entities sampleCfg).map (entityText sampleForgeNoGroup sampleCfg)) ++
        concatText trailerLines) := by
  refine ⟨by decide, by decide, by decide, by decide, by decide⟩

/-- C8, amended: for every run in which the group of the assignment is found,
the roster mode is valid and all file opens succeed, and for any prior state
of the file, the final contents are exactly the header line, then for each
entity of the roster in order and each recorded member in order one comment
line and one score map line, then the fixed trailer of eleven lines. When no
entity is graded (an empty roster included) the file is header and trailer. -/
theorem output_structure (c : Forge) (cfg : AssignmentConfig) (w : World) (gid : Int)
    (h : w.exit = none) (hg : c.getGroupID cfg = .ok gid)
    (hper : cfg.Per = .PerStudent ∨ cfg.Per = .PerGroup)
    (hopen : ∀ b ∈ w.opens, b = true) :
    (FetchResults c cfg w).file =
      some (headerLine ++ concatText ((entities cfg).map (entityText c cfg)) ++
        concatText trailerLines) ∧
    ((∀ e ∈ entities cfg, (entityOutcome c cfg e.1).isGraded = false) →
      (FetchResults c cfg w).file = some (headerLine ++ concatText trailerLines)) ∧
    trailerLines.length = 11 ∧
    (FetchResults c cfg w).exit = none := by
  have h1 : (w.emit .getGroupID).exit = none := by simp [h]
  have h2 : (writeHeader cfg (w.emit .getGroupID)).exit = none := by simp [h]
  have o2 : (writeHeader cfg (w.emit .getGroupID)).opens = w.opens.tail := by
    rw [writeHeader_opens cfg _ h1]; simp
  have f2 : (writeHeader cfg (w.emit .getGroupID)).file = some headerLine := by
    rw [writeHeader_file cfg _ h1]
    simp only [emit_opens]
    rw [headD_of_all_true _ hopen]
    rfl
  have h3 : (processEntities c cfg gid (entities cfg)
      (writeHeader cfg (w.emit .getGroupID))).exit = none := by
    rw [processEntities_exit]; exact h2
  have f3 := processEntities_file c cfg gid (entities cfg) _ h2
    (by rw [o2]; exact tail_all_true _ hopen) headerLine f2
  have o3 : (processEntities c cfg gid (entities cfg)
      (writeHeader cfg (w.emit .getGroupID))).opens.headD true = true := by
    rw [processEntities_opens _ _ _ _ _ h2, o2]
    exact headD_of_all_true _ (drop_all_true _ _ (tail_all_true _ hopen))
  have main : (FetchResults c cfg w).file =
      some (headerLine ++ concatText ((entities cfg).map (entityText c cfg)) ++
        concatText trailerLines) := by
    rw [FetchResults_ok c cfg w gid hg, roster_eq c cfg gid _ hper,
      writeTrailer_file cfg _ h3, f3, o3]
    simp [appendText]
  refine ⟨main, ?_, rfl, ?_⟩
  · intro hnone
    rw [main, concatText_empty]
    · rfl
    · intro x hx
      obtain ⟨e, he, rfl⟩ := List.mem_map.1 hx
      exact entityText_of_not_graded c cfg e (hnone e he)
  · rw [FetchResults_ok c cfg w gid hg, roster_eq c cfg gid _ hper, writeTrailer_exit]
    exact h3

/-- Witness of the amended C8: the run of `sampleCfg` on `sampleForge` over the
file of an earlier run. -/
theorem output_structure_witness :
    (FetchResults sampleForge sampleCfg sampleWorld).file =
      some (headerLine ++ concatText ((entities sampleCfg).map (entityText sampleForge sampleCfg)) ++
        concatText trailerLines) ∧
    concatText ((entities sampleCfg).map (entityText sampleForge sampleCfg)) =
      "// alice;alice;9;10;65\nscoreMap[\"alice\"] = 65;\n" :=
  ⟨(output_structure sampleForge sampleCfg sampleWorld 1 rfl rfl (Or.inl rfl)
      (by decide)).1,
   by decide⟩

/-! ### Effects are never taken back -/

theorem mem_emit (w : World) (e x : Event) (hx : x ∈ w.trace) : x ∈ (w.emit e).trace := by
  unfold World.emit
  split
  · exact hx
  · exact List.mem_append_left _ hx

theorem mem_Write (f : Bool) (text : String) (w : World) (x : Event) (hx : x ∈ w.trace) :
    x ∈ (Write f text w).trace := by
  unfold Write
  split
  · exact hx
  · exact List.mem_append_left _ hx

theorem mem_goPanic (msg : String) (w : World) (x : Event) (hx : x ∈ w.trace) :
    x ∈ (goPanic msg w).trace := by
  unfold goPanic
  split
  · exact hx
  · exact List.mem_append_left _ hx

theorem mem_OpenFile (name : String) (mode : OpenMode) (w : World) (x : Event)
    (hx : x ∈ w.trace) : x ∈ (OpenFile name mode w).2.trace := by
  unfold OpenFile
  split
  · exact hx
  · exact List.mem_append_left _ hx

theorem mem_membersLoop (c : Forge) (f : Bool) (p t s : Int) (members : List String)
    (w : World) (x : Event) (hx : x ∈ w.trace) :
    x ∈ (membersLoop c f p t s members w).trace := by
  induction members generalizing w with
  | nil => exact hx
  | cons m ms ih =>
    simp only [membersLoop]
    split
    · exact mem_emit _ _ _ hx
    · exact ih _ (mem_Write _ _ _ _ (mem_Write _ _ _ _ (mem_emit _ _ _ hx)))

theorem mem_jobsLoop (c : Forge) (f : Bool) (project : Int) (members : List String)
    (jobs : List Job) (w : World) (x : Event) (hx : x ∈ w.trace) :
    x ∈ (jobsLoop c f project members jobs w).trace := by
  induction jobs generalizing w with
  | nil => exact hx
  | cons job jobs ih =>
    simp only [jobsLoop]
    split
    · split
      · exact mem_emit _ _ _ hx
      · split
        · exact mem_emit _ _ _ hx
        · split
          · exact mem_goPanic _ _ _ (mem_emit _ _ _ hx)
          · exact mem_emit _ _ _ hx
          · exact mem_membersLoop _ _ _ _ _ _ _ _ (mem_emit _ _ _ hx)
    · exact ih w hx

theorem mem_fetchResults (c : Forge) (cfg : AssignmentConfig) (gid : Int) (projectname : String)
    (members : List String) (w : World) (x : Event) (hx : x ∈ w.trace) :
    x ∈ (fetchResults c cfg gid projectname members w).trace := by
  have h0 : x ∈ ((OpenFile (getResultsJsPath cfg) .appendCreate
      (w.emit (.fetchResults projectname members))).2.emit
        (.getProjectByName (cfg.Path ++ "/" ++ projectname))).trace :=
    mem_emit _ _ _ (mem_OpenFile _ _ _ _ (mem_emit _ _ _ hx))
  rw [fetchResults_eq]
  apply mem_emit
  split
  · exact h0
  · split
    · exact mem_emit _ _ _ h0
    · exact mem_emit _ _ _ h0
    · split
      · exact mem_emit _ _ _ (mem_emit _ _ _ h0)
      · exact mem_jobsLoop _ _ _ _ _ _ _ (mem_emit _ _ _ (mem_emit _ _ _ h0))

theorem mem_processEntities (c : Forge) (cfg : AssignmentConfig) (gid : Int)
    (es : List (String × List String)) (w : World) (x : Event) (hx : x ∈ w.trace) :
    x ∈ (processEntities c cfg gid es w).trace := by
  induction es generalizing w with
  | nil => exact hx
  | cons e es ih =>
    rw [processEntities_cons]
    exact ih _ (mem_fetchResults _ _ _ _ _ _ _ hx)

/-- The trace of the header part: the open, the write, the close. -/
theorem writeHeader_trace (cfg : AssignmentConfig) (w : World) (h : w.exit = none) :
    (writeHeader cfg w).trace =
      w.trace ++ [.OpenFile (getResultsJsPath cfg) .truncCreate (w.opens.headD true)] ++
        [.Write (w.opens.headD true) headerLine] ++ [.Close] := by
  have ho := OpenFile_truncCreate (getResultsJsPath cfg) w h
  have ht := OpenFile_trace (getResultsJsPath cfg) .truncCreate w h
  unfold writeHeader
  rw [Close_trace _ (by simp [h]), Write_trace _ _ _ (by simp [h]), ht, ho.1]

/-! ### The opens made for the entities -/

/-- Every call of `fetchResults` in a running process opens the output file
for appending, once, with the outcome that the environment grants. -/
theorem fetchResults_appendOpens (c : Forge) (cfg : AssignmentConfig) (gid : Int)
    (projectname : String) (members : List String) (w : World) (h : w.exit = none) :
    appendOpens (fetchResults c cfg gid projectname members w).trace =
      appendOpens w.trace ++ [w.opens.headD true] := by
  have ho := OpenFile_appendCreate (getResultsJsPath cfg)
    (w.emit (.fetchResults projectname members)) (by simp [h])
  simp only [emit_opens] at ho
  unfold appendOpens
  rw [fetchResults_filterMap _ quiet_appendOpen,
    filterMap_emit_none Event.appendOpen _ (.getProjectByName (cfg.Path ++ "/" ++ projectname))
      rfl,
    OpenFile_trace _ _ _ (by simp [h]), List.filterMap_append,
    filterMap_emit_none Event.appendOpen w (.fetchResults projectname members) rfl, ho.1]
  rfl

theorem processEntities_appendOpens (c : Forge) (cfg : AssignmentConfig) (gid : Int)
    (es : List (String × List String)) (w : World) (h : w.exit = none) :
    ∃ oks : List Bool, oks.length = es.length ∧
      appendOpens (processEntities c cfg gid es w).trace = appendOpens w.trace ++ oks := by
  induction es generalizing w with
  | nil => exact ⟨[], rfl, by simp [processEntities]⟩
  | cons e es ih =>
    obtain ⟨oks, hlen, heq⟩ := ih (fetchResults c cfg gid e.1 e.2 w)
      (by rw [fetchResults_exit]; exact h)
    refine ⟨w.opens.headD true :: oks, by simp [hlen], ?_⟩
    rw [processEntities_cons, heq, fetchResults_appendOpens _ _ _ _ _ _ h]
    simp

/-- C9, as stated, fails: when the open for the header fails, the run goes on;
both students of the roster are looked up on the forge, the record of alice
and the trailer are written, and the process does not exit with a status. -/
theorem header_open_failure_counterexample :
    (FetchResults sampleForge sampleCfg { sampleWorld with opens := [false] }).exit = none ∧
    Event.OpenFile "results_course.js" .truncCreate false ∈
      (FetchResults sampleForge sampleCfg { sampleWorld with opens := [false] }).trace ∧
    lookups (FetchResults sampleForge sampleCfg { sampleWorld with opens := [false] }).trace =
      ["course/hw1-bob", "course/hw1-alice"] ∧
    Event.Write true "scoreMap[\"alice\"] = 65;\n" ∈
      (FetchResults sampleForge sampleCfg { sampleWorld with opens := [false] }).trace ∧
    Event.Write true "console.log(scoreMap)\n" ∈
      (FetchResults sampleForge sampleCfg { sampleWorld with opens := [false] }).trace := by
  refine ⟨by decide, by decide, by decide, by decide, by decide⟩

/-- C9, amended: when the group of the assignment is found, the roster mode is
valid and the truncate-or-create open for the header fails, the run is not
aborted: the process does not exit, the header write goes to the nil handle,
every entity of the roster is processed and looked up on the forge in order,
the output file is opened for appending exactly once per entity, and the open
and the eleven writes of the trailer are attempted. When the file was there
and the later opens succeed, it ends as its prior contents followed by the
records of the roster and the trailer, without the header. -/
theorem header_open_failure (c : Forge) (cfg : AssignmentConfig) (w : World) (gid : Int)
    (rest : List Bool)
    (h : w.exit = none) (hg : c.getGroupID cfg = .ok gid)
    (hper : cfg.Per = .PerStudent ∨ cfg.Per = .PerGroup)
    (ho : w.opens = false :: rest) :
    (FetchResults c cfg w).exit = none ∧
    calls (FetchResults c cfg w).trace = calls w.trace ++ entities cfg ∧
    lookups (FetchResults c cfg w).trace =
      lookups w.trace ++ (entities cfg).map (fun e => cfg.Path ++ "/" ++ e.1) ∧
    Event.OpenFile (getResultsJsPath cfg) .truncCreate false ∈ (FetchResults c cfg w).trace ∧
    Event.Write false headerLine ∈ (FetchResults c cfg w).trace ∧
    (∃ ok, Event.OpenFile (getResultsJsPath cfg) .append ok ∈ (FetchResults c cfg w).trace) ∧
    (∀ line ∈ trailerLines, ∃ ok, Event.Write ok line ∈ (FetchResults c cfg w).trace) ∧
    (∃ oks : List Bool, oks.length = (entities cfg).length ∧
      appendOpens (FetchResults c cfg w).trace = appendOpens w.trace ++ oks) ∧
    ((∀ b ∈ rest, b = true) → ∀ old, w.file = some old →
      (FetchResults c cfg w).file =
        some (old ++ concatText ((entities cfg).map (entityText c cfg)) ++
          concatText trailerLines)) := by
  have h1 : (w.emit .getGroupID).exit = none := by simp [h]
  have h2 : (writeHeader cfg (w.emit .getGroupID)).exit = none := by simp [h]
  have h3 : (processEntities c cfg gid (entities cfg)
      (writeHeader cfg (w.emit .getGroupID))).exit = none := by
    rw [processEntities_exit]; exact h2
  have c1 : calls (w.emit .getGroupID).trace = calls w.trace :=
    filterMap_emit_none Event.call w .getGroupID rfl
  have l1 : lookups (w.emit .getGroupID).trace = lookups w.trace :=
    filterMap_emit_none Event.lookup w .getGroupID rfl
  have a1 : appendOpens (w.emit .getGroupID).trace = appendOpens w.trace :=
    filterMap_emit_none Event.appendOpen w .getGroupID rfl
  have c2 : calls (writeHeader cfg (w.emit .getGroupID)).trace = calls w.trace := by
    unfold calls; rw [writeHeader_filterMap _ quiet_call _ (fun _ => rfl)]; exact c1
  have l2 : lookups (writeHeader cfg (w.emit .getGroupID)).trace = lookups w.trace := by
    unfold lookups; rw [writeHeader_filterMap _ quiet_lookup _ (fun _ => rfl)]; exact l1
  have a2 : appendOpens (writeHeader cfg (w.emit .getGroupID)).trace = appendOpens w.trace := by
    unfold appendOpens; rw [writeHeader_filterMap _ quiet_appendOpen _ (fun _ => rfl)]; exact a1
  have o2 : (writeHeader cfg (w.emit .getGroupID)).opens = rest := by
    rw [writeHeader_opens cfg _ h1]; simp [ho]
  have f2 : (writeHeader cfg (w.emit .getGroupID)).file = w.file := by
    rw [writeHeader_file cfg _ h1]; simp [ho]
  have e := FetchResults_ok c cfg w gid hg
  rw [roster_eq c cfg gid _ hper] at e
  have tr := writeTrailer_trace cfg _ h3
  rw [← e] at tr
  have th := writeHeader_trace cfg (w.emit .getGroupID) h1
  simp only [emit_opens, ho, List.headD_cons] at th
  have keep : ∀ x, x ∈ (writeHeader cfg (w.emit .getGroupID)).trace →
      x ∈ (FetchResults c cfg w).trace := by
    intro x hx
    rw [tr]
    exact List.mem_append_left _ (List.mem_append_left _ (List.mem_append_left _
      (mem_processEntities c cfg gid _ _ x hx)))
  refine ⟨?_, ?_, ?_, keep _ (by rw [th]; simp), keep _ (by rw [th]; simp), ?_, ?_, ?_, ?_⟩
  · rw [e, writeTrailer_exit]; exact h3
  · rw [e]
    unfold calls
    rw [writeTrailer_filterMap _ quiet_call _ (fun _ => rfl)]
    have := processEntities_calls c cfg gid (entities cfg) _ h2
    unfold calls at this c2
    rw [this, c2]
  · rw [e]
    unfold lookups
    rw [writeTrailer_filterMap _ quiet_lookup _ (fun _ => rfl)]
    have := processEntities_lookups c cfg gid (entities cfg) _ h2
    unfold lookups at this l2
    rw [this, l2]
  · refine ⟨((processEntities c cfg gid (entities cfg)
        (writeHeader cfg (w.emit .getGroupID))).opens.headD true &&
      (processEntities c cfg gid (entities cfg)
        (writeHeader cfg (w.emit .getGroupID))).file.isSome), ?_⟩
    rw [tr]
    simp
  · intro line hl
    refine ⟨((processEntities c cfg gid (entities cfg)
        (writeHeader cfg (w.emit .getGroupID))).opens.headD true &&
      (processEntities c cfg gid (entities cfg)
        (writeHeader cfg (w.emit .getGroupID))).file.isSome), ?_⟩
    rw [tr]
    simp only [List.mem_append, List.mem_map]
    exact Or.inl (Or.inr ⟨line, hl, rfl⟩)
  · obtain ⟨oks, hlen, heq⟩ := processEntities_appendOpens c cfg gid (entities cfg) _ h2
    refine ⟨oks, hlen, ?_⟩
    rw [e]
    unfold appendOpens
    rw [writeTrailer_filterMap _ quiet_appendOpen _ (fun _ => rfl)]
    unfold appendOpens at heq a2
    rw [heq, a2]
  · intro hrest old hold
    have f3 := processEntities_file c cfg gid (entities cfg) _ h2
      (by rw [o2]; exact hrest) old (by rw [f2]; exact hold)
    have o3 : (processEntities c cfg gid (entities cfg)
        (writeHeader cfg (w.emit .getGroupID))).opens.headD true = true := by
      rw [processEntities_opens _ _ _ _ _ h2, o2]
      exact headD_of_all_true _ (drop_all_true _ _ hrest)
    rw [e, writeTrailer_file cfg _ h3, f3, o3]
    simp [appendText]

/-- Witness of the amended C9: the run of `sampleCfg` on `sampleForge` with a
failing first open; both students get an open for appending, and the file of
the earlier run ends with the record of alice and the trailer after its old
contents. -/
theorem header_open_failure_witness :
    (FetchResults sampleForge sampleCfg { sampleWorld with opens := [false] }).exit = none ∧
    calls (FetchResults sampleForge sampleCfg { sampleWorld with opens := [false] }).trace =
      [("hw1-bob", ["bob"]), ("hw1-alice", ["alice"])] ∧
    Event.Write false headerLine ∈
      (FetchResults sampleForge sampleCfg { sampleWorld with opens := [false] }).trace ∧
    (FetchResults sampleForge sampleCfg { sampleWorld with opens := [false] }).file =
      some ("old scores" ++
        concatText ((entities sampleCfg).map (entityText sampleForge sampleCfg)) ++
        concatText trailerLines) ∧
    appendOpens (FetchResults sampleForge sampleCfg { sampleWorld with opens := [false] }).trace =
      [true, true] :=
  ⟨(header_open_failure sampleForge sampleCfg { sampleWorld with opens := [false] } 1 []
      rfl rfl (Or.inl rfl) rfl).1,
   (header_open_failure sampleForge sampleCfg { sampleWorld with opens := [false] } 1 []
      rfl rfl (Or.inl rfl) rfl).2.1,
   (header_open_failure sampleForge sampleCfg { sampleWorld with opens := [false] } 1 []
      rfl rfl (Or.inl rfl) rfl).2.2.2.2.1,
   (header_open_failure sampleForge sampleCfg { sampleWorld with opens := [false] } 1 []
      rfl rfl (Or.inl rfl) rfl).2.2.2.2.2.2.2.2 (by decide) "old scores" rfl,
   by decide⟩

end Glabs
